import Mathlib

/-!
Shallow embedding of the CardEngine component from
src/assets/js/card_engine.js (the variant in src/unnamed/part_001 differs
only in straightening and stack constants; the claims are settled against
the src/assets/js/card_engine.js authority).

Modelling conventions:
* JavaScript numbers are modelled as rationals.  Math.cos, Math.sin and
  Math.PI are transcendental, so they are abstracted as a parameter
  structure JsMath; every formula keeps the exact shape of the source.
* Math.random() draws are passed as explicit arguments of the events that
  consume them (addCard start position/tilt, moveToStack tilt, the
  breathing phase chosen at construction).
* The TWEEN library is modelled by a list of active tween records.  A
  started tween is appended with a fresh id; .stop() removes it;
  completion is an explicit event which writes the tween target into the
  object and runs the onComplete effect (the discard tween removes the
  object from the scene and deletes the map entry).  Intermediate eased
  values are float-dependent and are observed by none of the claims, so
  frames advance only the camera; tween completions are separate events.
* The DOM is reduced to what the engine reads from it: whether
  document.getElementById finds the element (addCard argument), whether a
  pointer sits inside the expanded bounding box (onCardLeave argument),
  and the container rectangle (pointer-move arguments).
* The cards Map is an insertion-ordered association list with JavaScript
  Map semantics: set overwrites in place, otherwise appends; delete
  removes the entry.  CSS3DObjects get fresh numeric identities so that
  the scene can hold an object that the map no longer tracks.
* A fired setTimeout handle is modelled as the timer becoming none: the
  stale non-null handle left in hoverState.leaveTimer is observationally
  equivalent (clearTimeout on a fired handle is a no-op).
* The JavaScript truthiness test on hoverState.activeId is modelled as an
  Option; the divergence for the empty string id is unreachable because
  document.getElementById with an empty id never finds an element, so
  addCard never attaches hover listeners for it.
-/

namespace CardSpec

/-- Abstraction of the transcendental pieces of the JS Math object. -/
structure JsMath where
  cos : ℚ → ℚ
  sin : ℚ → ℚ
  pi : ℚ

structure Vec3 where
  x : ℚ
  y : ℚ
  z : ℚ
deriving DecidableEq, Repr

/-- userData.home of a card: resting position and rotation. -/
structure Home where
  x : ℚ
  y : ℚ
  z : ℚ
  rx : ℚ
  ry : ℚ
  rz : ℚ
deriving DecidableEq, Repr

/-- Which property object a tween animates. -/
inductive TField where
  | position
  | rotation
deriving DecidableEq, Repr

/-- A .to target: TWEEN only animates the listed keys. -/
structure PTarget where
  x : Option ℚ
  y : Option ℚ
  z : Option ℚ
deriving DecidableEq, Repr

def applyPTarget (v : Vec3) (t : PTarget) : Vec3 :=
  ⟨t.x.getD v.x, t.y.getD v.y, t.z.getD v.z⟩

/-- One started, not yet finished TWEEN.Tween.  removes carries the
onComplete effect of the discard tween (scene.remove + cards.delete). -/
structure Tween where
  tid : Nat
  objId : Nat
  tfield : TField
  target : PTarget
  durationMs : ℚ
  removes : Option String
deriving DecidableEq, Repr

/-- A CSS3DObject as far as the engine reads/writes it. -/
structure Card where
  objId : Nat
  pos : Vec3
  rot : Vec3
  home : Option Home
  hovered : Bool
  visible : Bool
  hoverTween : Option Nat
deriving DecidableEq, Repr

structure Breathing where
  phase : ℚ
  amp : ℚ
  speed : ℚ
deriving DecidableEq, Repr

structure Parallax2 where
  x : ℚ
  z : ℚ
deriving DecidableEq, Repr

structure HoverState where
  activeId : Option String
  leaveTimer : Option String
  switchLockUntil : ℚ
  lockMs : ℚ
  releaseMs : ℚ
deriving DecidableEq, Repr

structure EngineState where
  cards : List (String × Card)
  hoverState : HoverState
  focusLevel : ℚ
  prefersReducedMotion : Bool
  parallax : Parallax2
  parallaxTarget : Parallax2
  breathing : Breathing
  cameraPos : Vec3
  scene : List Nat
  tweens : List Tween
  nextObjId : Nat
  nextTweenId : Nat
deriving DecidableEq, Repr

/-- this.baseCamera = { x: 0, y: 800, z: 1200 }. -/
def baseCamera : Vec3 := ⟨0, 800, 1200⟩

/-- JS Map.get. -/
def mget : List (String × Card) → String → Option Card
  | [], _ => none
  | p :: rest, k => if p.1 = k then some p.2 else mget rest k

/-- JS Map.set: overwrite in place, else append (insertion order). -/
def mset : List (String × Card) → String → Card → List (String × Card)
  | [], k, v => [(k, v)]
  | p :: rest, k, v => if p.1 = k then (k, v) :: rest else p :: mset rest k v

/-- JS Map.delete. -/
def mdelete : List (String × Card) → String → List (String × Card)
  | [], _ => []
  | p :: rest, k => if p.1 = k then rest else p :: mdelete rest k

/-- Mutation of the object stored under a key (JS mutates the object the
map entry points at). -/
def updCard (m : List (String × Card)) (k : String) (f : Card → Card) :
    List (String × Card) :=
  m.map (fun p => if p.1 = k then (p.1, f p.2) else p)

/-- _pseudoRandom(seed): Math.sin(seed) * 10000 minus its floor. -/
def pseudoRandom (M : JsMath) (seed : ℚ) : ℚ :=
  let x := M.sin seed * 10000
  x - (⌊x⌋ : ℤ)

structure StackTransform where
  targetX : ℚ
  targetY : ℚ
  targetZ : ℚ
  rotX : ℚ
  rotY : ℚ
  rotZ : ℚ
deriving DecidableEq, Repr

/-- _computeStackTransform(index) of src/assets/js/card_engine.js. -/
def computeStackTransform (M : JsMath) (index : Nat) : StackTransform :=
  let i : ℚ := index
  let angle := i * 0.55
  let radius := 20 + (min i 16) * 2.2
  let jitter := (pseudoRandom M (i * 3.1) - 0.5) * 10
  { targetX := M.cos angle * radius + jitter
    targetY := min (i * 0.35) 6
    targetZ := M.sin angle * radius + jitter
    rotX := -(M.pi / 2)
    rotY := (pseudoRandom M (i * 5.7) - 0.5) * 0.08
    rotZ := (pseudoRandom M (i * 8.3) - 0.5) * 0.12 }

/-- object.userData.home as assigned from a stack transform. -/
def homeOfTransform (t : StackTransform) : Home :=
  ⟨t.targetX, t.targetY, t.targetZ, t.rotX, t.rotY, t.rotZ⟩

/-- new TWEEN.Tween(...).to(target, dur).start(). -/
def startTween (s : EngineState) (objId : Nat) (f : TField) (target : PTarget)
    (dur : ℚ) (removes : Option String) : EngineState :=
  { s with
    tweens := s.tweens ++ [⟨s.nextTweenId, objId, f, target, dur, removes⟩]
    nextTweenId := s.nextTweenId + 1 }

/-- object.userData.hoverTween?.stop?.(). -/
def stopTween (s : EngineState) (tid : Option Nat) : EngineState :=
  match tid with
  | none => s
  | some t => { s with tweens := s.tweens.filter (fun tw => tw.tid ≠ t) }

/-- _dropCard(elementId, force). -/
def dropCard (s : EngineState) (elementId : String) (force : Bool) :
    EngineState :=
  match mget s.cards elementId with
  | none => s
  | some c =>
    if force = false ∧ c.hovered = false then s
    else
      match c.home with
      | none => s
      | some home =>
        let s1 := { s with
          cards := updCard s.cards elementId (fun cc => { cc with hovered := false }) }
        let s2 := stopTween s1 c.hoverTween
        let posTid := s2.nextTweenId
        let s3 := startTween s2 c.objId .position
          ⟨some home.x, some home.y, some home.z⟩ 260 none
        let s4 := startTween s3 c.objId .rotation
          ⟨some home.rx, some home.ry, some home.rz⟩ 260 none
        { s4 with
          cards := updCard s4.cards elementId (fun cc => { cc with hoverTween := some posTid }) }

/-- _liftCard(elementId). -/
def liftCard (M : JsMath) (s : EngineState) (elementId : String) :
    EngineState :=
  match mget s.cards elementId with
  | none => s
  | some c =>
    if c.hovered = true then s
    else
      match c.home with
      | none => s
      | some home =>
        let s1 := { s with
          cards := updCard s.cards elementId (fun cc => { cc with hovered := true }) }
        let focusPull : ℚ := 0.55
        let liftPos : PTarget :=
          ⟨some (home.x * (1 - focusPull)), some (home.y + 32),
            some (home.z * (1 - focusPull) + 180)⟩
        let liftRot : PTarget := ⟨some (-(M.pi / 2)), some 0, some 0⟩
        let s2 := stopTween s1 c.hoverTween
        let posTid := s2.nextTweenId
        let s3 := startTween s2 c.objId .position liftPos 240 none
        let s4 := startTween s3 c.objId .rotation liftRot 240 none
        { s4 with
          cards := updCard s4.cards elementId (fun cc => { cc with hoverTween := some posTid }) }

/-- addCard(elementId).  elemExists says whether document.getElementById
found the element; randX and randRz are the two Math.random() draws. -/
def addCard (M : JsMath) (s : EngineState) (elementId : String)
    (elemExists : Bool) (randX randRz : ℚ) : EngineState :=
  if elemExists = false then s
  else
    let objId := s.nextObjId
    let startPos : Vec3 := ⟨(randX - 0.5) * 200, 1000, 500⟩
    let startRot : Vec3 := ⟨M.pi / 2, 0, (randRz - 0.5) * 0.5⟩
    let newCard : Card :=
      { objId := objId, pos := startPos, rot := startRot, home := none,
        hovered := false, visible := true, hoverTween := none }
    let cards1 := mset s.cards elementId newCard
    let index := cards1.length
    let t := computeStackTransform M index
    let cards2 := updCard cards1 elementId
      (fun c => { c with home := some (homeOfTransform t), hovered := false })
    let s2 := { s with
      scene := s.scene ++ [objId]
      nextObjId := objId + 1
      cards := cards2 }
    let s3 := startTween s2 objId .position
      ⟨some t.targetX, some t.targetY, some t.targetZ⟩ 1000 none
    startTween s3 objId .rotation
      ⟨some t.rotX, some t.rotY, some t.rotZ⟩ 1000 none

/-- moveToStack(elementId); randRz is the Math.random() tilt draw. -/
def moveToStack (s : EngineState) (elementId : String) (randRz : ℚ) :
    EngineState :=
  match mget s.cards elementId with
  | none => s
  | some c =>
    let s1 := startTween s c.objId .position
      ⟨some 400, some 0, some (-200)⟩ 800 none
    startTween s1 c.objId .rotation ⟨none, none, some (randRz * 0.2)⟩ 800 none

/-- discard(elementId): only starts the fly-out tween; the removal is the
onComplete effect carried by the tween record. -/
def discard (s : EngineState) (elementId : String) : EngineState :=
  match mget s.cards elementId with
  | none => s
  | some c =>
    startTween s c.objId .position
      ⟨some (-1000), some 0, some 0⟩ 600 (some elementId)

/-- setCardVisible(elementId, visible). -/
def setCardVisible (s : EngineState) (elementId : String) (visible : Bool) :
    EngineState :=
  match mget s.cards elementId with
  | none => s
  | some _ =>
    let s1 :=
      if visible = false ∧ s.hoverState.activeId = some elementId then
        let sd := dropCard s elementId true
        { sd with hoverState := { sd.hoverState with activeId := none } }
      else s
    { s1 with
      cards := updCard s1.cards elementId (fun c => { c with visible := visible }) }

/-- One iteration of the forEach inside restackVisible. -/
def restackStep (M : JsMath) (s : EngineState) (idx : Nat)
    (elementId : String) : EngineState :=
  match mget s.cards elementId with
  | none => s
  | some c =>
    let t := computeStackTransform M (idx + 1)
    let s1 := { s with
      cards := updCard s.cards elementId
        (fun cc => { cc with home := some (homeOfTransform t) }) }
    let s2 := if c.hovered = true then dropCard s1 elementId true else s1
    let s3 := startTween s2 c.objId .position
      ⟨some t.targetX, some t.targetY, some t.targetZ⟩ 520 none
    startTween s3 c.objId .rotation
      ⟨some t.rotX, some t.rotY, some t.rotZ⟩ 520 none

/-- restackVisible(elementIds). -/
def restackVisible (M : JsMath) (s : EngineState)
    (elementIds : List String) : EngineState :=
  let ids := elementIds.filter (fun id => (mget s.cards id).isSome)
  ids.enum.foldl (fun st p => restackStep M st p.1 p.2) s

/-- setFocus(level). -/
def setFocus (s : EngineState) (level : ℚ) : EngineState :=
  { s with focusLevel := max 0 (min 1 level) }

/-- setMotionEnabled(enabled). -/
def setMotionEnabled (s : EngineState) (enabled : Bool) : EngineState :=
  { s with prefersReducedMotion := !enabled }

/-- _onCardEnter(elementId, event) at time now. -/
def onCardEnter (M : JsMath) (s : EngineState) (elementId : String)
    (now : ℚ) : EngineState :=
  let s1 := { s with hoverState := { s.hoverState with leaveTimer := none } }
  match s.hoverState.activeId with
  | some a =>
    if a ≠ elementId then
      if now < s.hoverState.switchLockUntil then s1
      else
        let s2 := dropCard s1 a true
        let s3 := { s2 with hoverState := { s2.hoverState with
          activeId := some elementId,
          switchLockUntil := now + s2.hoverState.lockMs } }
        liftCard M s3 elementId
    else
      let s3 := { s1 with hoverState := { s1.hoverState with
        activeId := some elementId,
        switchLockUntil := now + s1.hoverState.lockMs } }
      liftCard M s3 elementId
  | none =>
    let s3 := { s1 with hoverState := { s1.hoverState with
      activeId := some elementId,
      switchLockUntil := now + s1.hoverState.lockMs } }
    liftCard M s3 elementId

/-- _onCardLeave(elementId, event); inMargin is the expanded
bounding-box test on the pointer coordinates. -/
def onCardLeave (s : EngineState) (elementId : String) (inMargin : Bool) :
    EngineState :=
  if s.hoverState.activeId ≠ some elementId then s
  else if (mget s.cards elementId).isSome = true ∧ inMargin = true then s
  else { s with hoverState := { s.hoverState with leaveTimer := some elementId } }

/-- The deferred callback of the hover-release setTimeout firing. -/
def releaseTimerFire (s : EngineState) : EngineState :=
  match s.hoverState.leaveTimer with
  | none => s
  | some elementId =>
    let s1 := { s with hoverState := { s.hoverState with leaveTimer := none } }
    if s1.hoverState.activeId = some elementId then
      let s2 := dropCard s1 elementId true
      { s2 with hoverState := { s2.hoverState with activeId := none } }
    else s1

/-- The two container pointerleave listeners registered in init:
parallax target reset and forced hover drop. -/
def containerPointerLeave (s : EngineState) : EngineState :=
  let s1 := { s with parallaxTarget := ⟨0, 0⟩ }
  match s1.hoverState.activeId with
  | some a =>
    let s2 := dropCard s1 a true
    { s2 with hoverState := { s2.hoverState with activeId := none } }
  | none => s1

/-- The updateTarget closure of _attachMotionHandlers (pointermove and
touchmove both call it with the pointer-client coordinates). -/
def pointerMoveUpdate (s : EngineState)
    (clientX clientY rectLeft rectTop rectW rectH : ℚ) : EngineState :=
  if s.prefersReducedMotion = true then s
  else if rectW = 0 ∨ rectH = 0 then s
  else
    let x := (clientX - rectLeft) / rectW
    let y := (clientY - rectTop) / rectH
    { s with parallaxTarget := ⟨(x - 0.5) * 2, (y - 0.5) * 2⟩ }

/-- _updateCameraMotion(now). -/
def updateCameraMotion (M : JsMath) (s : EngineState) (now : ℚ) :
    EngineState :=
  if s.prefersReducedMotion = true then s
  else
    let focusFactor := 1 - s.focusLevel * 0.65
    let targetX := s.parallaxTarget.x * 40 * focusFactor
    let targetZ := s.parallaxTarget.z * 30 * focusFactor
    let px := s.parallax.x + (targetX - s.parallax.x) * 0.05
    let pz := s.parallax.z + (targetZ - s.parallax.z) * 0.05
    let breath := M.sin (now * s.breathing.speed + s.breathing.phase)
      * s.breathing.amp * (0.4 + (1 - s.focusLevel) * 0.6)
    { s with
      parallax := ⟨px, pz⟩
      cameraPos := ⟨baseCamera.x + px, baseCamera.y + breath, baseCamera.z + pz⟩ }

/-- Write-back of a finished tween into the object it animated. -/
def applyTweenToCard (t : Tween) (c : Card) : Card :=
  if c.objId = t.objId then
    match t.tfield with
    | .position => { c with pos := applyPTarget c.pos t.target }
    | .rotation => { c with rot := applyPTarget c.rot t.target }
  else c

/-- A tween reaching its end inside TWEEN.update: final value written,
tween retired, onComplete executed (the discard tween removes the object
from the scene and deletes the map entry for the captured id). -/
def tweenComplete (s : EngineState) (tid : Nat) : EngineState :=
  match s.tweens.find? (fun t => t.tid = tid) with
  | none => s
  | some t =>
    let s1 := { s with
      cards := s.cards.map (fun p => (p.1, applyTweenToCard t p.2))
      tweens := s.tweens.filter (fun tw => tw.tid ≠ tid) }
    match t.removes with
    | none => s1
    | some elementId =>
      { s1 with
        scene := s1.scene.filter (fun o => o ≠ t.objId)
        cards := mdelete s1.cards elementId }

/-- State after the constructor: reduced is the prefers-reduced-motion
media query, breathPhase the Math.random() breathing phase draw. -/
def initState (reduced : Bool) (breathPhase : ℚ) : EngineState :=
  { cards := []
    hoverState := { activeId := none, leaveTimer := none,
                    switchLockUntil := 0, lockMs := 180, releaseMs := 140 }
    focusLevel := 0
    prefersReducedMotion := reduced
    parallax := ⟨0, 0⟩
    parallaxTarget := ⟨0, 0⟩
    breathing := { phase := breathPhase, amp := 10, speed := 0.0006 }
    cameraPos := baseCamera
    scene := []
    tweens := []
    nextObjId := 0
    nextTweenId := 0 }

/-- Everything that can happen to the engine after construction: the
public API, the attached pointer/timer handlers, frames, and tween
completions. -/
inductive Event where
  | evAddCard (elementId : String) (elemExists : Bool) (randX randRz : ℚ)
  | evMoveToStack (elementId : String) (randRz : ℚ)
  | evDiscard (elementId : String)
  | evSetCardVisible (elementId : String) (visible : Bool)
  | evRestackVisible (elementIds : List String)
  | evSetFocus (level : ℚ)
  | evSetMotionEnabled (enabled : Bool)
  | evCardEnter (elementId : String) (now : ℚ)
  | evCardLeave (elementId : String) (inMargin : Bool)
  | evReleaseTimer
  | evContainerLeave
  | evPointerMove (clientX clientY rectLeft rectTop rectW rectH : ℚ)
  | evFrame (now : ℚ)
  | evTweenComplete (tid : Nat)

def step (M : JsMath) (s : EngineState) : Event → EngineState
  | .evAddCard id ex rX rZ => addCard M s id ex rX rZ
  | .evMoveToStack id rZ => moveToStack s id rZ
  | .evDiscard id => discard s id
  | .evSetCardVisible id v => setCardVisible s id v
  | .evRestackVisible ids => restackVisible M s ids
  | .evSetFocus l => setFocus s l
  | .evSetMotionEnabled e => setMotionEnabled s e
  | .evCardEnter id now => onCardEnter M s id now
  | .evCardLeave id inM => onCardLeave s id inM
  | .evReleaseTimer => releaseTimerFire s
  | .evContainerLeave => containerPointerLeave s
  | .evPointerMove cx cy rl rt rw rh => pointerMoveUpdate s cx cy rl rt rw rh
  | .evFrame now => updateCameraMotion M s now
  | .evTweenComplete tid => tweenComplete s tid

def run (M : JsMath) (s : EngineState) (evs : List Event) : EngineState :=
  evs.foldl (step M) s

/-- The home transform the engine currently stores for an id. -/
def cardHome (s : EngineState) (id : String) : Option Home :=
  (mget s.cards id).bind Card.home

/-- Number of cards whose hovered flag is set. -/
def hoveredCount (s : EngineState) : Nat :=
  (s.cards.filter (fun p => p.2.hovered)).length

/-- A concrete instantiation of the abstracted Math functions, used by
the witnesses and counterexamples. -/
def M0 : JsMath := { cos := fun _ => 1, sin := fun _ => 0, pi := 0 }

/-- A sequence of addCard calls: each entry is (id, randX, randRz) with
the DOM element present. -/
def addSeq (M : JsMath) (s : EngineState)
    (adds : List (String × ℚ × ℚ)) : EngineState :=
  adds.foldl (fun st a => addCard M st a.1 true a.2.1 a.2.2) s

/-- The home an id ends up with after the indexed restack assignments in
the given list are applied left to right (last assignment wins). -/
def homeAfter (M : JsMath) (l : List (Nat × String)) (c : String)
    (h : Option Home) : Option Home :=
  l.foldl (fun acc p =>
    if p.2 = c then
      some (homeOfTransform (computeStackTransform M (p.1 + 1)))
    else acc) h

/-- Engine with one dealt card, used by witnesses. -/
def oneCardState : EngineState :=
  addCard M0 (initState false 0) "a" true 0 0

/-- Engine with one dealt card currently hovered, used by witnesses. -/
def hoverDemoState : EngineState :=
  run M0 (initState false 0)
    [Event.evAddCard "a" true 0 0, Event.evCardEnter "a" 0]

/-- Deal a card, start its discard, re-hover it while the discard tween
is in flight, then let the discard tween (tid 2) complete. -/
def discardLiftState : EngineState :=
  run M0 (initState false 0)
    [Event.evAddCard "a" true 0 0, Event.evDiscard "a",
     Event.evCardEnter "a" 0, Event.evTweenComplete 2]

/-- Hover card a, leave it outside the margin (release timer pending),
just before a pointer-enter on card b inside the lock window. -/
def lockTimerPre : EngineState :=
  run M0 (initState false 0)
    [Event.evAddCard "a" true 0 0, Event.evAddCard "b" true 0 0,
     Event.evCardEnter "a" 0, Event.evCardLeave "a" false]

/-- lockTimerPre after a pointer-enter on card b at time 100, inside the
180 ms switch-lock window. -/
def lockTimerPost : EngineState :=
  step M0 lockTimerPre (Event.evCardEnter "b" 100)

/-- Pointer motion, one motion-enabled frame, then motion disabled and
two more frames. -/
def motionHistoryState : EngineState :=
  run M0 (initState false 0)
    [Event.evPointerMove 100 0 0 0 100 100, Event.evFrame 0,
     Event.evSetMotionEnabled false, Event.evFrame 16, Event.evFrame 32]

/-- A default card value used to spell out concrete witnesses. -/
def card0 : Card :=
  { objId := 0, pos := ⟨0, 0, 0⟩, rot := ⟨0, 0, 0⟩, home := none,
    hovered := false, visible := true, hoverTween := none }

/-- The cards Map never holds two entries for one id. -/
abbrev NodupKeys (s : EngineState) : Prop := (s.cards.map Prod.fst).Nodup

/-- Every tracked card has its home transform assigned (addCard assigns
it before any handler can run). -/
abbrev HomeInv (s : EngineState) : Prop :=
  ∀ p ∈ s.cards, p.2.home.isSome = true

/-- Every card whose hovered flag is set is the active hover id. -/
abbrev hoverOK (m : List (String × Card)) (a : Option String) : Prop :=
  ∀ p ∈ m, p.2.hovered = true → a = some p.1

abbrev noHovered (m : List (String × Card)) : Prop :=
  ∀ p ∈ m, p.2.hovered = false

/-- The reachability invariant of the engine. -/
abbrev Inv (s : EngineState) : Prop :=
  NodupKeys s ∧ HomeInv s ∧ hoverOK s.cards s.hoverState.activeId

/- Batteries seals rational arithmetic against definitional unfolding;
re-open it locally so that concrete witness states evaluate. -/
attribute [local semireducible] Rat.add Rat.mul Rat.sub Rat.inv
  Rat.ofScientific

/-! Association-list (JS Map) lemmas -/

theorem mget_eq_none_iff (m : List (String × Card)) (k : String) :
    mget m k = none ↔ k ∉ m.map Prod.fst := by
  induction m with
  | nil => simp [mget]
  | cons p rest ih =>
    by_cases h : p.1 = k
    · simp [mget, h]
    · simp only [mget, if_neg h, List.map_cons, List.mem_cons, ih]
      constructor
      · intro hn hk
        rcases hk with hk | hk
        · exact h hk.symm
        · exact hn hk
      · intro hn hk
        exact hn (Or.inr hk)

theorem mem_of_mget_eq_some {m : List (String × Card)} {k : String}
    {c : Card} (h : mget m k = some c) : (k, c) ∈ m := by
  induction m with
  | nil => simp [mget] at h
  | cons p rest ih =>
    by_cases hp : p.1 = k
    · simp only [mget, if_pos hp, Option.some.injEq] at h
      have he : (k, c) = p := by
        rw [← hp, ← h]
      rw [he]
      exact List.mem_cons_self _ _
    · simp only [mget, if_neg hp] at h
      exact List.mem_cons_of_mem _ (ih h)

theorem mget_isSome_iff (m : List (String × Card)) (k : String) :
    (mget m k).isSome = true ↔ k ∈ m.map Prod.fst := by
  rw [Option.isSome_iff_ne_none, ne_eq, mget_eq_none_iff, not_not]

theorem keys_updCard (m : List (String × Card)) (k : String) (f : Card → Card) :
    (updCard m k f).map Prod.fst = m.map Prod.fst := by
  simp only [updCard, List.map_map]
  apply List.map_congr_left
  intro p _
  by_cases h : p.1 = k <;> simp [h]

theorem mget_updCard_self (m : List (String × Card)) (k : String)
    (f : Card → Card) : mget (updCard m k f) k = (mget m k).map f := by
  induction m with
  | nil => simp [mget, updCard]
  | cons p rest ih =>
    by_cases h : p.1 = k
    · simp [mget, updCard, h]
    · simpa [mget, updCard, h] using ih

theorem mget_updCard_other (m : List (String × Card)) (k k2 : String)
    (f : Card → Card) (hne : k2 ≠ k) :
    mget (updCard m k f) k2 = mget m k2 := by
  induction m with
  | nil => simp [mget, updCard]
  | cons p rest ih =>
    by_cases h : p.1 = k
    · have hk2 : ¬(k = k2) := fun hc => hne hc.symm
      simpa [mget, updCard, h, hk2] using ih
    · by_cases h2 : p.1 = k2
      · simp [mget, updCard, h, h2, hne]
      · simpa [mget, updCard, h, h2] using ih

theorem updCard_updCard (m : List (String × Card)) (k : String)
    (f g : Card → Card) :
    updCard (updCard m k f) k g = updCard m k (fun c => g (f c)) := by
  simp only [updCard, List.map_map]
  apply List.map_congr_left
  intro p _
  by_cases h : p.1 = k <;> simp [h]

theorem mem_updCard {m : List (String × Card)} {k : String} {f : Card → Card}
    {q : String × Card} (hq : q ∈ updCard m k f) :
    ∃ p ∈ m, q = if p.1 = k then (p.1, f p.2) else p := by
  simp only [updCard, List.mem_map] at hq
  obtain ⟨p, hp, hpq⟩ := hq
  exact ⟨p, hp, hpq.symm⟩

theorem mem_mset {m : List (String × Card)} {k : String} {v : Card}
    {q : String × Card} (hq : q ∈ mset m k v) : q = (k, v) ∨ q ∈ m := by
  induction m with
  | nil => simpa [mset] using hq
  | cons p rest ih =>
    by_cases h : p.1 = k
    · simp [mset, h] at hq
      rcases hq with hq | hq
      · exact Or.inl hq
      · exact Or.inr (List.mem_cons_of_mem _ hq)
    · simp [mset, h] at hq
      rcases hq with hq | hq
      · exact Or.inr (by simp [hq])
      · rcases ih hq with hh | hh
        · exact Or.inl hh
        · exact Or.inr (List.mem_cons_of_mem _ hh)

theorem keys_mset_mem (m : List (String × Card)) (k : String) (v : Card)
    {a : String} (ha : a ∈ (mset m k v).map Prod.fst) :
    a ∈ m.map Prod.fst ∨ a = k := by
  induction m with
  | nil => simpa [mset] using ha
  | cons p rest ih =>
    by_cases h : p.1 = k
    · simp [mset, h] at ha
      rcases ha with ha | ha
      · exact Or.inr ha
      · exact Or.inl (by simp [ha])
    · simp [mset, h] at ha
      rcases ha with ha | ha
      · exact Or.inl (by simp [ha])
      · rcases ih (by simpa using ha) with hh | hh
        · exact Or.inl (by simp at hh ⊢; exact Or.inr hh)
        · exact Or.inr hh

theorem nodup_keys_mset {m : List (String × Card)} (k : String) (v : Card)
    (h : (m.map Prod.fst).Nodup) : ((mset m k v).map Prod.fst).Nodup := by
  induction m with
  | nil => simp [mset]
  | cons p rest ih =>
    simp only [List.map_cons, List.nodup_cons] at h
    by_cases hp : p.1 = k
    · subst hp
      simp only [mset, eq_self_iff_true, if_true, List.map_cons, List.nodup_cons]
      exact ⟨h.1, h.2⟩
    · simp only [mset, if_neg hp, List.map_cons, List.nodup_cons]
      refine ⟨fun hc => ?_, ih h.2⟩
      rcases keys_mset_mem rest k v hc with hh | hh
      · exact h.1 hh
      · exact hp hh

theorem mget_mset_self (m : List (String × Card)) (k : String) (v : Card) :
    mget (mset m k v) k = some v := by
  induction m with
  | nil => simp [mget, mset]
  | cons p rest ih =>
    by_cases h : p.1 = k <;> simp [mget, mset, h, ih]

theorem mget_mset_other (m : List (String × Card)) (k k2 : String) (v : Card)
    (hne : k2 ≠ k) : mget (mset m k v) k2 = mget m k2 := by
  induction m with
  | nil =>
    have hk2 : ¬(k = k2) := fun hc => hne hc.symm
    simp [mget, mset, hk2]
  | cons p rest ih =>
    by_cases h : p.1 = k
    · have hk2 : ¬(k = k2) := fun hc => hne hc.symm
      have hp2 : ¬(p.1 = k2) := by rw [h]; exact hk2
      simp [mget, mset, h, hk2, hp2]
    · by_cases h2 : p.1 = k2
      · simp [mget, mset, h, h2, hne]
      · simpa [mget, mset, h, h2] using ih

theorem length_mset_of_isSome (m : List (String × Card)) (k : String)
    (v : Card) (h : (mget m k).isSome = true) :
    (mset m k v).length = m.length := by
  induction m with
  | nil => simp [mget] at h
  | cons p rest ih =>
    by_cases hp : p.1 = k
    · simp [mset, hp]
    · simp [mget, hp] at h
      simp [mset, hp, ih h]

theorem length_mset_of_none (m : List (String × Card)) (k : String)
    (v : Card) (h : mget m k = none) :
    (mset m k v).length = m.length + 1 := by
  induction m with
  | nil => simp [mset]
  | cons p rest ih =>
    by_cases hp : p.1 = k
    · simp [mget, hp] at h
    · simp [mget, hp] at h
      simp [mset, hp, ih h]

theorem mdelete_sublist (m : List (String × Card)) (k : String) :
    (mdelete m k).Sublist m := by
  induction m with
  | nil => simp [mdelete]
  | cons p rest ih =>
    by_cases h : p.1 = k
    · simpa [mdelete, h] using List.sublist_cons_self p rest
    · simpa [mdelete, h] using ih.cons₂ p

theorem mem_mdelete {m : List (String × Card)} {k : String}
    {q : String × Card} (hq : q ∈ mdelete m k) : q ∈ m :=
  (mdelete_sublist m k).mem hq

theorem mget_mdelete_self {m : List (String × Card)} (k : String)
    (h : (m.map Prod.fst).Nodup) : mget (mdelete m k) k = none := by
  induction m with
  | nil => simp [mget, mdelete]
  | cons p rest ih =>
    simp only [List.map_cons, List.nodup_cons] at h
    by_cases hp : p.1 = k
    · simp only [mdelete, if_pos hp]
      rw [mget_eq_none_iff]
      rw [← hp]
      exact h.1
    · simp [mdelete, mget, hp, ih h.2]

/-! State invariants -/

theorem noHovered_hoverOK {m : List (String × Card)} (h : noHovered m)
    (a : Option String) : hoverOK m a :=
  fun p hp hhov => absurd hhov (by simp [h p hp])

theorem hoverOK_only {m : List (String × Card)} {k : String}
    (h : ∀ p ∈ m, p.2.hovered = true → p.1 = k) : hoverOK m (some k) :=
  fun p hp hhov => by rw [h p hp hhov]

theorem hoverOK_to_only {m : List (String × Card)} {a : Option String}
    {k : String} (h : hoverOK m a) (ha : a = some k) :
    ∀ p ∈ m, p.2.hovered = true → p.1 = k := by
  intro p hp hhov
  have hk := h p hp hhov
  rw [ha] at hk
  exact (Option.some.inj hk).symm

theorem hoverOK_updCard_unhover {m : List (String × Card)}
    {a : Option String} {k : String} {f : Card → Card} (h : hoverOK m a)
    (hf : ∀ c, (f c).hovered = false) : hoverOK (updCard m k f) a := by
  intro p hp hhov
  rcases mem_updCard hp with ⟨q, hq, hpq⟩
  by_cases hk : q.1 = k
  · rw [if_pos hk] at hpq
    rw [hpq] at hhov
    simp [hf] at hhov
  · rw [if_neg hk] at hpq
    rw [hpq] at hhov ⊢
    exact h q hq hhov

theorem hoverOK_updCard_preserve {m : List (String × Card)}
    {a : Option String} {k : String} {f : Card → Card} (h : hoverOK m a)
    (hf : ∀ c, (f c).hovered = c.hovered) : hoverOK (updCard m k f) a := by
  intro p hp hhov
  rcases mem_updCard hp with ⟨q, hq, hpq⟩
  by_cases hk : q.1 = k
  · rw [if_pos hk] at hpq
    rw [hpq] at hhov ⊢
    rw [hf] at hhov
    exact h q hq hhov
  · rw [if_neg hk] at hpq
    rw [hpq] at hhov ⊢
    exact h q hq hhov

theorem homeInv_updCard {m : List (String × Card)} {k : String}
    {f : Card → Card} (h : ∀ p ∈ m, p.2.home.isSome = true)
    (hf : ∀ c, c.home.isSome = true → (f c).home.isSome = true) :
    ∀ p ∈ updCard m k f, p.2.home.isSome = true := by
  intro p hp
  rcases mem_updCard hp with ⟨q, hq, hpq⟩
  by_cases hk : q.1 = k
  · rw [if_pos hk] at hpq
    rw [hpq]
    exact hf q.2 (h q hq)
  · rw [if_neg hk] at hpq
    rw [hpq]
    exact h q hq

/-! Projection facts for the tween helpers and hover operations -/

theorem stopTween_cards (s : EngineState) (t : Option Nat) :
    (stopTween s t).cards = s.cards := by
  cases t <;> rfl

theorem stopTween_hoverState (s : EngineState) (t : Option Nat) :
    (stopTween s t).hoverState = s.hoverState := by
  cases t <;> rfl

theorem stopTween_focusLevel (s : EngineState) (t : Option Nat) :
    (stopTween s t).focusLevel = s.focusLevel := by
  cases t <;> rfl

theorem stopTween_reduced (s : EngineState) (t : Option Nat) :
    (stopTween s t).prefersReducedMotion = s.prefersReducedMotion := by
  cases t <;> rfl

theorem stopTween_scene (s : EngineState) (t : Option Nat) :
    (stopTween s t).scene = s.scene := by
  cases t <;> rfl

theorem stopTween_nextTweenId (s : EngineState) (t : Option Nat) :
    (stopTween s t).nextTweenId = s.nextTweenId := by
  cases t <;> rfl

theorem stopTween_cameraPos (s : EngineState) (t : Option Nat) :
    (stopTween s t).cameraPos = s.cameraPos := by
  cases t <;> rfl

theorem dropCard_cards_cases (s : EngineState) (k : String) (force : Bool) :
    (dropCard s k force).cards = s.cards ∨
    ∃ tid, (dropCard s k force).cards =
      updCard s.cards k
        (fun cc => { cc with hovered := false, hoverTween := some tid }) := by
  unfold dropCard
  split
  · exact Or.inl rfl
  · split
    · exact Or.inl rfl
    · split
      · exact Or.inl rfl
      · refine Or.inr ⟨s.nextTweenId, ?_⟩
        simp only [startTween, stopTween_cards, stopTween_nextTweenId,
          updCard_updCard]

theorem dropCard_misc (s : EngineState) (k : String) (force : Bool) :
    (dropCard s k force).hoverState = s.hoverState ∧
    (dropCard s k force).focusLevel = s.focusLevel ∧
    (dropCard s k force).prefersReducedMotion = s.prefersReducedMotion ∧
    (dropCard s k force).cameraPos = s.cameraPos ∧
    (dropCard s k force).scene = s.scene := by
  unfold dropCard
  split
  · exact ⟨rfl, rfl, rfl, rfl, rfl⟩
  · split
    · exact ⟨rfl, rfl, rfl, rfl, rfl⟩
    · split
      · exact ⟨rfl, rfl, rfl, rfl, rfl⟩
      · refine ⟨?_, ?_, ?_, ?_, ?_⟩ <;>
          simp only [startTween, stopTween_hoverState, stopTween_focusLevel,
            stopTween_reduced, stopTween_scene, stopTween_cameraPos]

theorem keys_dropCard (s : EngineState) (k : String) (force : Bool) :
    (dropCard s k force).cards.map Prod.fst = s.cards.map Prod.fst := by
  rcases dropCard_cards_cases s k force with h | ⟨tid, h⟩
  · rw [h]
  · rw [h, keys_updCard]

theorem cardHome_dropCard (s : EngineState) (k : String) (force : Bool)
    (c2 : String) : cardHome (dropCard s k force) c2 = cardHome s c2 := by
  rcases dropCard_cards_cases s k force with h | ⟨tid, h⟩
  · unfold cardHome
    rw [h]
  · unfold cardHome
    rw [h]
    by_cases hc : c2 = k
    · subst hc
      rw [mget_updCard_self]
      cases mget s.cards c2 <;> rfl
    · rw [mget_updCard_other _ _ _ _ hc]

theorem homeInv_dropCard {s : EngineState} (k : String) (force : Bool)
    (h : HomeInv s) : HomeInv (dropCard s k force) := by
  rcases dropCard_cards_cases s k force with hc | ⟨tid, hc⟩
  · intro p hp
    rw [hc] at hp
    exact h p hp
  · intro p hp
    rw [hc] at hp
    refine homeInv_updCard h ?_ p hp
    intro c hh
    exact hh

theorem hoverOK_dropCard {s : EngineState} {a : Option String} (k : String)
    (force : Bool) (h : hoverOK s.cards a) :
    hoverOK (dropCard s k force).cards a := by
  rcases dropCard_cards_cases s k force with hc | ⟨tid, hc⟩
  · rw [hc]
    exact h
  · rw [hc]
    exact hoverOK_updCard_unhover h (fun c => rfl)

theorem noHovered_dropCard_active (s : EngineState) (a : String)
    (hOK : hoverOK s.cards s.hoverState.activeId)
    (hact : s.hoverState.activeId = some a) (hHome : HomeInv s) :
    noHovered (dropCard s a true).cards := by
  have honly := hoverOK_to_only hOK hact
  unfold dropCard
  split
  · rename_i hm
    intro p hp
    by_contra hb
    have hhov : p.2.hovered = true := by simpa using hb
    have hpa : p.1 = a := honly p hp hhov
    have hka : a ∈ s.cards.map Prod.fst := by
      rw [← hpa]
      exact List.mem_map_of_mem Prod.fst hp
    exact (mget_eq_none_iff s.cards a).mp hm hka
  · rename_i c hm
    split
    · rename_i hf
      simp at hf
    · split
      · rename_i hh
        have hcm : (a, c) ∈ s.cards := mem_of_mget_eq_some hm
        have hsome := hHome (a, c) hcm
        rw [hh] at hsome
        simp at hsome
      · rename_i home hh
        intro p hp
        simp only [startTween, stopTween_cards, updCard_updCard] at hp
        rcases mem_updCard hp with ⟨q, hq, hpq⟩
        by_cases hk : q.1 = a
        · rw [if_pos hk] at hpq
          rw [hpq]
        · rw [if_neg hk] at hpq
          rw [hpq]
          by_contra hb
          have hhov : q.2.hovered = true := by simpa using hb
          exact hk (honly q hq hhov)

theorem liftCard_cards_cases (M : JsMath) (s : EngineState) (k : String) :
    (liftCard M s k).cards = s.cards ∨
    ∃ tid, (liftCard M s k).cards =
      updCard s.cards k
        (fun cc => { cc with hovered := true, hoverTween := some tid }) := by
  unfold liftCard
  split
  · exact Or.inl rfl
  · split
    · exact Or.inl rfl
    · split
      · exact Or.inl rfl
      · refine Or.inr ⟨s.nextTweenId, ?_⟩
        simp only [startTween, stopTween_cards, stopTween_nextTweenId,
          updCard_updCard]

theorem liftCard_misc (M : JsMath) (s : EngineState) (k : String) :
    (liftCard M s k).hoverState = s.hoverState ∧
    (liftCard M s k).focusLevel = s.focusLevel ∧
    (liftCard M s k).prefersReducedMotion = s.prefersReducedMotion ∧
    (liftCard M s k).cameraPos = s.cameraPos ∧
    (liftCard M s k).scene = s.scene := by
  unfold liftCard
  split
  · exact ⟨rfl, rfl, rfl, rfl, rfl⟩
  · split
    · exact ⟨rfl, rfl, rfl, rfl, rfl⟩
    · split
      · exact ⟨rfl, rfl, rfl, rfl, rfl⟩
      · refine ⟨?_, ?_, ?_, ?_, ?_⟩ <;>
          simp only [startTween, stopTween_hoverState, stopTween_focusLevel,
            stopTween_reduced, stopTween_scene, stopTween_cameraPos]

theorem keys_liftCard (M : JsMath) (s : EngineState) (k : String) :
    (liftCard M s k).cards.map Prod.fst = s.cards.map Prod.fst := by
  rcases liftCard_cards_cases M s k with h | ⟨tid, h⟩
  · rw [h]
  · rw [h, keys_updCard]

theorem homeInv_liftCard (M : JsMath) {s : EngineState} (k : String)
    (h : HomeInv s) : HomeInv (liftCard M s k) := by
  rcases liftCard_cards_cases M s k with hc | ⟨tid, hc⟩
  · intro p hp
    rw [hc] at hp
    exact h p hp
  · intro p hp
    rw [hc] at hp
    refine homeInv_updCard h ?_ p hp
    intro c hh
    exact hh

theorem hoverOK_liftCard_of_only (M : JsMath) (s : EngineState) (k : String)
    (h : ∀ p ∈ s.cards, p.2.hovered = true → p.1 = k) :
    hoverOK (liftCard M s k).cards (some k) := by
  rcases liftCard_cards_cases M s k with hc | ⟨tid, hc⟩
  · rw [hc]
    exact hoverOK_only h
  · rw [hc]
    apply hoverOK_only
    intro p hp hhov
    rcases mem_updCard hp with ⟨q, hq, hpq⟩
    by_cases hk : q.1 = k
    · rw [if_pos hk] at hpq
      rw [hpq]
      exact hk
    · rw [if_neg hk] at hpq
      rw [hpq] at hhov ⊢
      exact h q hq hhov

theorem dropCard_hoverState (s : EngineState) (k : String) (force : Bool) :
    (dropCard s k force).hoverState = s.hoverState :=
  (dropCard_misc s k force).1

theorem dropCard_focusLevel (s : EngineState) (k : String) (force : Bool) :
    (dropCard s k force).focusLevel = s.focusLevel :=
  (dropCard_misc s k force).2.1

theorem dropCard_reduced (s : EngineState) (k : String) (force : Bool) :
    (dropCard s k force).prefersReducedMotion = s.prefersReducedMotion :=
  (dropCard_misc s k force).2.2.1

theorem dropCard_cameraPos (s : EngineState) (k : String) (force : Bool) :
    (dropCard s k force).cameraPos = s.cameraPos :=
  (dropCard_misc s k force).2.2.2.1

theorem dropCard_scene (s : EngineState) (k : String) (force : Bool) :
    (dropCard s k force).scene = s.scene :=
  (dropCard_misc s k force).2.2.2.2

theorem liftCard_hoverState (M : JsMath) (s : EngineState) (k : String) :
    (liftCard M s k).hoverState = s.hoverState :=
  (liftCard_misc M s k).1

theorem liftCard_focusLevel (M : JsMath) (s : EngineState) (k : String) :
    (liftCard M s k).focusLevel = s.focusLevel :=
  (liftCard_misc M s k).2.1

theorem liftCard_reduced (M : JsMath) (s : EngineState) (k : String) :
    (liftCard M s k).prefersReducedMotion = s.prefersReducedMotion :=
  (liftCard_misc M s k).2.2.1

theorem liftCard_cameraPos (M : JsMath) (s : EngineState) (k : String) :
    (liftCard M s k).cameraPos = s.cameraPos :=
  (liftCard_misc M s k).2.2.2.1

theorem liftCard_scene (M : JsMath) (s : EngineState) (k : String) :
    (liftCard M s k).scene = s.scene :=
  (liftCard_misc M s k).2.2.2.2

/-- Lifting a card in a state where only that card can be hovered and it
is the active id yields an invariant state. -/
theorem inv_liftCard_general (M : JsMath) {X : EngineState} (id : String)
    (hnd : (X.cards.map Prod.fst).Nodup)
    (hhome : ∀ p ∈ X.cards, p.2.home.isSome = true)
    (honly : ∀ p ∈ X.cards, p.2.hovered = true → p.1 = id)
    (hact : X.hoverState.activeId = some id) :
    Inv (liftCard M X id) := by
  refine ⟨?_, ?_, ?_⟩
  · unfold NodupKeys
    rw [keys_liftCard]
    exact hnd
  · exact homeInv_liftCard M id hhome
  · rw [liftCard_hoverState, hact]
    exact hoverOK_liftCard_of_only M X id honly

theorem noHovered_updCard {m : List (String × Card)} {k : String}
    {f : Card → Card} (h : noHovered m)
    (hf : ∀ c, (f c).hovered = c.hovered) : noHovered (updCard m k f) := by
  intro p hp
  rcases mem_updCard hp with ⟨q, hq, hpq⟩
  by_cases hk : q.1 = k
  · rw [if_pos hk] at hpq
    rw [hpq]
    simp only
    rw [hf]
    exact h q hq
  · rw [if_neg hk] at hpq
    rw [hpq]
    exact h q hq

theorem keys_map_apply (m : List (String × Card))
    (g : String × Card → Card) :
    (m.map (fun p => (p.1, g p))).map Prod.fst = m.map Prod.fst := by
  rw [List.map_map]
  apply List.map_congr_left
  intro p _
  rfl

theorem applyTweenToCard_home (t : Tween) (c : Card) :
    (applyTweenToCard t c).home = c.home := by
  unfold applyTweenToCard
  split
  · cases t.tfield <;> rfl
  · rfl

theorem applyTweenToCard_hovered (t : Tween) (c : Card) :
    (applyTweenToCard t c).hovered = c.hovered := by
  unfold applyTweenToCard
  split
  · cases t.tfield <;> rfl
  · rfl

/-- Establish Inv from explicitly given cards and activeId values. -/
theorem inv_of_parts (s : EngineState) (m : List (String × Card))
    (a : Option String) (hc : s.cards = m) (ha : s.hoverState.activeId = a)
    (hnd : (m.map Prod.fst).Nodup)
    (hhome : ∀ p ∈ m, p.2.home.isSome = true) (hOK : hoverOK m a) :
    Inv s := by
  refine ⟨?_, ?_, ?_⟩
  · unfold NodupKeys
    rw [hc]
    exact hnd
  · intro p hp
    rw [hc] at hp
    exact hhome p hp
  · intro p hp hhov
    rw [hc] at hp
    rw [ha]
    exact hOK p hp hhov

/-! Invariant preservation, operation by operation -/

theorem inv_onCardEnter (M : JsMath) {s : EngineState} (id : String)
    (now : ℚ) (h : Inv s) : Inv (onCardEnter M s id now) := by
  obtain ⟨hnd, hhome, hOK⟩ := h
  unfold onCardEnter
  split
  · rename_i a ha
    split
    · rename_i hne
      split
      · exact ⟨hnd, hhome, hOK⟩
      · rename_i hnl
        apply inv_liftCard_general M id
        · have h2 : ((dropCard
              { s with hoverState := { s.hoverState with leaveTimer := none } }
              a true).cards.map Prod.fst).Nodup := by
            rw [keys_dropCard]
            exact hnd
          exact h2
        · exact homeInv_dropCard a true hhome
        · have hnoh : noHovered (dropCard
              { s with hoverState := { s.hoverState with leaveTimer := none } }
              a true).cards :=
            noHovered_dropCard_active _ a hOK ha hhome
          intro p hp hhov
          exact absurd hhov (by simp [hnoh p hp])
        · rfl
    · rename_i hne
      have haid : a = id := not_ne_iff.mp hne
      apply inv_liftCard_general M id
      · exact hnd
      · exact hhome
      · exact hoverOK_to_only hOK (by rw [ha, haid])
      · rfl
  · rename_i ha
    apply inv_liftCard_general M id
    · exact hnd
    · exact hhome
    · intro p hp hhov
      have hx := hOK p hp hhov
      rw [ha] at hx
      exact absurd hx (by simp)
    · rfl

theorem inv_onCardLeave {s : EngineState} (id : String) (inMargin : Bool)
    (h : Inv s) : Inv (onCardLeave s id inMargin) := by
  obtain ⟨hnd, hhome, hOK⟩ := h
  unfold onCardLeave
  split
  · exact ⟨hnd, hhome, hOK⟩
  · split
    · exact ⟨hnd, hhome, hOK⟩
    · exact ⟨hnd, hhome, hOK⟩

theorem inv_releaseTimerFire {s : EngineState} (h : Inv s) :
    Inv (releaseTimerFire s) := by
  obtain ⟨hnd, hhome, hOK⟩ := h
  unfold releaseTimerFire
  split
  · exact ⟨hnd, hhome, hOK⟩
  · rename_i id hm
    dsimp only
    split
    · rename_i hai
      have hnoh : noHovered (dropCard
          { s with hoverState := { s.hoverState with leaveTimer := none } }
          id true).cards :=
        noHovered_dropCard_active _ id hOK hai hhome
      refine ⟨?_, ?_, ?_⟩
      · have h2 : ((dropCard
            { s with hoverState := { s.hoverState with leaveTimer := none } }
            id true).cards.map Prod.fst).Nodup := by
          rw [keys_dropCard]
          exact hnd
        exact h2
      · exact homeInv_dropCard id true hhome
      · exact noHovered_hoverOK hnoh _
    · exact ⟨hnd, hhome, hOK⟩

theorem inv_containerPointerLeave {s : EngineState} (h : Inv s) :
    Inv (containerPointerLeave s) := by
  obtain ⟨hnd, hhome, hOK⟩ := h
  unfold containerPointerLeave
  dsimp only
  split
  · rename_i a ha
    have hnoh : noHovered (dropCard
        { s with parallaxTarget := ⟨0, 0⟩ } a true).cards :=
      noHovered_dropCard_active _ a hOK ha hhome
    refine ⟨?_, ?_, ?_⟩
    · have h2 : ((dropCard { s with parallaxTarget := ⟨0, 0⟩ } a
          true).cards.map Prod.fst).Nodup := by
        rw [keys_dropCard]
        exact hnd
      exact h2
    · exact homeInv_dropCard a true hhome
    · exact noHovered_hoverOK hnoh _
  · exact ⟨hnd, hhome, hOK⟩

theorem inv_setCardVisible {s : EngineState} (id : String) (visible : Bool)
    (h : Inv s) : Inv (setCardVisible s id visible) := by
  obtain ⟨hnd, hhome, hOK⟩ := h
  unfold setCardVisible
  split
  · exact ⟨hnd, hhome, hOK⟩
  · rename_i c hm
    dsimp only
    by_cases hcond : visible = false ∧ s.hoverState.activeId = some id
    · rw [if_pos hcond]
      have hnoh : noHovered (dropCard s id true).cards :=
        noHovered_dropCard_active s id hOK hcond.2 hhome
      refine ⟨?_, ?_, ?_⟩
      · show ((updCard (dropCard s id true).cards id
            (fun c => { c with visible := visible })).map Prod.fst).Nodup
        rw [keys_updCard, keys_dropCard]
        exact hnd
      · show ∀ p ∈ updCard (dropCard s id true).cards id
            (fun c => { c with visible := visible }), p.2.home.isSome = true
        refine homeInv_updCard (homeInv_dropCard id true hhome) ?_
        intro cc hcc
        exact hcc
      · show hoverOK (updCard (dropCard s id true).cards id
            (fun c => { c with visible := visible })) none
        refine noHovered_hoverOK (noHovered_updCard hnoh ?_) none
        intro cc
        rfl
    · rw [if_neg hcond]
      refine ⟨?_, ?_, ?_⟩
      · show ((updCard s.cards id
            (fun c => { c with visible := visible })).map Prod.fst).Nodup
        rw [keys_updCard]
        exact hnd
      · show ∀ p ∈ updCard s.cards id
            (fun c => { c with visible := visible }), p.2.home.isSome = true
        refine homeInv_updCard hhome ?_
        intro cc hcc
        exact hcc
      · show hoverOK (updCard s.cards id
            (fun c => { c with visible := visible })) s.hoverState.activeId
        refine hoverOK_updCard_preserve hOK ?_
        intro cc
        rfl

theorem inv_addCard (M : JsMath) {s : EngineState} (id : String)
    (elemExists : Bool) (randX randRz : ℚ) (h : Inv s) :
    Inv (addCard M s id elemExists randX randRz) := by
  obtain ⟨hnd, hhome, hOK⟩ := h
  unfold addCard
  split
  · exact ⟨hnd, hhome, hOK⟩
  · dsimp only
    refine inv_of_parts _
      (updCard (mset s.cards id
        { objId := s.nextObjId, pos := ⟨(randX - 0.5) * 200, 1000, 500⟩,
          rot := ⟨M.pi / 2, 0, (randRz - 0.5) * 0.5⟩, home := none,
          hovered := false, visible := true, hoverTween := none }) id
        (fun c => { c with
          home := some (homeOfTransform (computeStackTransform M
            (mset s.cards id
              { objId := s.nextObjId, pos := ⟨(randX - 0.5) * 200, 1000, 500⟩,
                rot := ⟨M.pi / 2, 0, (randRz - 0.5) * 0.5⟩, home := none,
                hovered := false, visible := true,
                hoverTween := none }).length)),
          hovered := false }))
      s.hoverState.activeId rfl rfl ?_ ?_ ?_
    · rw [keys_updCard]
      exact nodup_keys_mset id _ hnd
    · intro p hp
      rcases mem_updCard hp with ⟨q, hq, hpq⟩
      by_cases hk : q.1 = id
      · rw [if_pos hk] at hpq
        rw [hpq]
        rfl
      · rw [if_neg hk] at hpq
        rw [hpq]
        rcases mem_mset hq with hq2 | hq2
        · exact absurd (congrArg Prod.fst hq2) hk
        · exact hhome q hq2
    · intro p hp hhov
      rcases mem_updCard hp with ⟨q, hq, hpq⟩
      by_cases hk : q.1 = id
      · rw [if_pos hk] at hpq
        rw [hpq] at hhov
        simp at hhov
      · rw [if_neg hk] at hpq
        rw [hpq] at hhov ⊢
        rcases mem_mset hq with hq2 | hq2
        · exact absurd (congrArg Prod.fst hq2) hk
        · exact hOK q hq2 hhov

theorem inv_moveToStack {s : EngineState} (id : String) (randRz : ℚ)
    (h : Inv s) : Inv (moveToStack s id randRz) := by
  obtain ⟨hnd, hhome, hOK⟩ := h
  unfold moveToStack
  split
  · exact ⟨hnd, hhome, hOK⟩
  · exact ⟨hnd, hhome, hOK⟩

theorem inv_discard {s : EngineState} (id : String) (h : Inv s) :
    Inv (discard s id) := by
  obtain ⟨hnd, hhome, hOK⟩ := h
  unfold discard
  split
  · exact ⟨hnd, hhome, hOK⟩
  · exact ⟨hnd, hhome, hOK⟩

theorem inv_restackStep (M : JsMath) {s : EngineState} (idx : Nat)
    (id2 : String) (h : Inv s) : Inv (restackStep M s idx id2) := by
  obtain ⟨hnd, hhome, hOK⟩ := h
  unfold restackStep
  split
  · exact ⟨hnd, hhome, hOK⟩
  · rename_i c hm
    dsimp only
    have hs1home : ∀ p ∈ updCard s.cards id2
        (fun cc => { cc with
          home := some (homeOfTransform (computeStackTransform M (idx + 1))) }),
        p.2.home.isSome = true := by
      refine homeInv_updCard hhome ?_
      intro cc hcc
      rfl
    have hs1OK : hoverOK (updCard s.cards id2
        (fun cc => { cc with
          home := some (homeOfTransform (computeStackTransform M (idx + 1))) }))
        s.hoverState.activeId := by
      refine hoverOK_updCard_preserve hOK ?_
      intro cc
      rfl
    have hs1nd : ((updCard s.cards id2
        (fun cc => { cc with
          home := some (homeOfTransform (computeStackTransform M (idx + 1))) })).map
          Prod.fst).Nodup := by
      rw [keys_updCard]
      exact hnd
    by_cases hh : c.hovered = true
    · rw [if_pos hh]
      refine inv_of_parts _
        (dropCard
          { s with cards := updCard s.cards id2 (fun cc =>
              { cc with home := some (homeOfTransform
                  (computeStackTransform M (idx + 1))) }) }
          id2 true).cards
        (dropCard
          { s with cards := updCard s.cards id2 (fun cc =>
              { cc with home := some (homeOfTransform
                  (computeStackTransform M (idx + 1))) }) }
          id2 true).hoverState.activeId rfl rfl ?_ ?_ ?_
      · rw [keys_dropCard]
        exact hs1nd
      · exact homeInv_dropCard id2 true hs1home
      · rw [dropCard_hoverState]
        exact hoverOK_dropCard id2 true hs1OK
    · rw [if_neg hh]
      exact inv_of_parts _
        (updCard s.cards id2 (fun cc =>
          { cc with home := some (homeOfTransform
              (computeStackTransform M (idx + 1))) }))
        s.hoverState.activeId rfl rfl hs1nd hs1home hs1OK

theorem inv_restackFold (M : JsMath) (l : List (Nat × String))
    {s : EngineState} (h : Inv s) :
    Inv (l.foldl (fun st p => restackStep M st p.1 p.2) s) := by
  induction l generalizing s with
  | nil => exact h
  | cons p rest ih => exact ih (inv_restackStep M p.1 p.2 h)

theorem inv_restackVisible (M : JsMath) {s : EngineState}
    (ids : List String) (h : Inv s) : Inv (restackVisible M s ids) := by
  unfold restackVisible
  exact inv_restackFold M _ h

theorem inv_setFocus {s : EngineState} (level : ℚ) (h : Inv s) :
    Inv (setFocus s level) := h

theorem inv_setMotionEnabled {s : EngineState} (enabled : Bool) (h : Inv s) :
    Inv (setMotionEnabled s enabled) := h

theorem inv_pointerMoveUpdate {s : EngineState}
    (cx cy rl rt rw rh : ℚ) (h : Inv s) :
    Inv (pointerMoveUpdate s cx cy rl rt rw rh) := by
  unfold pointerMoveUpdate
  split
  · exact h
  · split
    · exact h
    · exact h

theorem inv_updateCameraMotion (M : JsMath) {s : EngineState} (now : ℚ)
    (h : Inv s) : Inv (updateCameraMotion M s now) := by
  unfold updateCameraMotion
  split
  · exact h
  · exact h

theorem inv_tweenComplete {s : EngineState} (tid : Nat) (h : Inv s) :
    Inv (tweenComplete s tid) := by
  obtain ⟨hnd, hhome, hOK⟩ := h
  unfold tweenComplete
  split
  · exact ⟨hnd, hhome, hOK⟩
  · rename_i t hfind
    dsimp only
    have hnd1 : ((s.cards.map
        (fun p => (p.1, applyTweenToCard t p.2))).map Prod.fst).Nodup := by
      rw [keys_map_apply]
      exact hnd
    have hhome1 : ∀ p ∈ s.cards.map
        (fun p => (p.1, applyTweenToCard t p.2)), p.2.home.isSome = true := by
      intro p hp
      rcases List.mem_map.mp hp with ⟨q, hq, hpq⟩
      rw [← hpq]
      show (applyTweenToCard t q.2).home.isSome = true
      rw [applyTweenToCard_home]
      exact hhome q hq
    have hOK1 : hoverOK (s.cards.map
        (fun p => (p.1, applyTweenToCard t p.2))) s.hoverState.activeId := by
      intro p hp hhov
      rcases List.mem_map.mp hp with ⟨q, hq, hpq⟩
      rw [← hpq]
      rw [← hpq] at hhov
      have hhov2 : q.2.hovered = true := by
        rw [← applyTweenToCard_hovered t q.2]
        exact hhov
      exact hOK q hq hhov2
    split
    · exact inv_of_parts _
        (s.cards.map (fun p => (p.1, applyTweenToCard t p.2)))
        s.hoverState.activeId rfl rfl hnd1 hhome1 hOK1
    · rename_i id2 hrem
      refine inv_of_parts _
        (mdelete (s.cards.map (fun p => (p.1, applyTweenToCard t p.2))) id2)
        s.hoverState.activeId rfl rfl ?_ ?_ ?_
      · exact ((mdelete_sublist _ id2).map Prod.fst).nodup hnd1
      · intro p hp
        exact hhome1 p (mem_mdelete hp)
      · intro p hp hhov
        exact hOK1 p (mem_mdelete hp) hhov

theorem inv_init (reduced : Bool) (breathPhase : ℚ) :
    Inv (initState reduced breathPhase) := by
  refine ⟨?_, ?_, ?_⟩
  · simp [NodupKeys, initState]
  · intro p hp
    simp [initState] at hp
  · intro p hp
    simp [initState] at hp

theorem inv_step (M : JsMath) {s : EngineState} (e : Event) (h : Inv s) :
    Inv (step M s e) := by
  cases e with
  | evAddCard id ex rX rZ => exact inv_addCard M id ex rX rZ h
  | evMoveToStack id rZ => exact inv_moveToStack id rZ h
  | evDiscard id => exact inv_discard id h
  | evSetCardVisible id v => exact inv_setCardVisible id v h
  | evRestackVisible ids => exact inv_restackVisible M ids h
  | evSetFocus l => exact inv_setFocus l h
  | evSetMotionEnabled en => exact inv_setMotionEnabled en h
  | evCardEnter id now => exact inv_onCardEnter M id now h
  | evCardLeave id inM => exact inv_onCardLeave id inM h
  | evReleaseTimer => exact inv_releaseTimerFire h
  | evContainerLeave => exact inv_containerPointerLeave h
  | evPointerMove cx cy rl rt rw rh =>
    exact inv_pointerMoveUpdate cx cy rl rt rw rh h
  | evFrame now => exact inv_updateCameraMotion M now h
  | evTweenComplete tid => exact inv_tweenComplete tid h

theorem inv_run (M : JsMath) {s : EngineState} (evs : List Event)
    (h : Inv s) : Inv (run M s evs) := by
  induction evs generalizing s with
  | nil => exact h
  | cons e rest ih => exact ih (inv_step M e h)

theorem hovered_filter_le_one {m : List (String × Card)} {a : Option String}
    (hnd : (m.map Prod.fst).Nodup) (hOK : hoverOK m a) :
    (m.filter (fun p => p.2.hovered)).length ≤ 1 := by
  induction m with
  | nil => simp
  | cons p rest ih =>
    simp only [List.map_cons, List.nodup_cons] at hnd
    by_cases hp : p.2.hovered = true
    · have ha : a = some p.1 := hOK p (List.mem_cons_self p rest) hp
      have hrest : rest.filter (fun q => q.2.hovered) = [] := by
        rw [List.filter_eq_nil]
        intro q hq
        intro hqh
        have hq2 : q.2.hovered = true := by simpa using hqh
        have := hOK q (List.mem_cons_of_mem p hq) hq2
        rw [ha] at this
        have hq1 : q.1 = p.1 := (Option.some.inj this).symm
        apply hnd.1
        rw [← hq1]
        exact List.mem_map_of_mem Prod.fst hq
      rw [List.filter_cons_of_pos (by simpa using hp), hrest]
      simp
    · have hOKr : hoverOK rest a :=
        fun q hq hqh => hOK q (List.mem_cons_of_mem p hq) hqh
      rw [List.filter_cons_of_neg (by simpa using hp)]
      exact ih hnd.2 hOKr

/-! Facts about addCard used for the stacking claims -/

theorem length_updCard (m : List (String × Card)) (k : String)
    (f : Card → Card) : (updCard m k f).length = m.length := by
  simp [updCard]

theorem cardHome_addCard_fresh (M : JsMath) (s : EngineState) (id : String)
    (rx rz : ℚ) (h : mget s.cards id = none) :
    cardHome (addCard M s id true rx rz) id =
      some (homeOfTransform (computeStackTransform M (s.cards.length + 1))) := by
  unfold addCard
  split
  · rename_i hx
    simp at hx
  · dsimp only
    show (mget (updCard (mset s.cards id
        { objId := s.nextObjId, pos := ⟨(rx - 0.5) * 200, 1000, 500⟩,
          rot := ⟨M.pi / 2, 0, (rz - 0.5) * 0.5⟩, home := none,
          hovered := false, visible := true, hoverTween := none }) id
        (fun c => { c with
          home := some (homeOfTransform (computeStackTransform M
            (mset s.cards id
              { objId := s.nextObjId, pos := ⟨(rx - 0.5) * 200, 1000, 500⟩,
                rot := ⟨M.pi / 2, 0, (rz - 0.5) * 0.5⟩, home := none,
                hovered := false, visible := true,
                hoverTween := none }).length)),
          hovered := false })) id).bind Card.home = _
    rw [mget_updCard_self, mget_mset_self, length_mset_of_none _ _ _ h]
    rfl

theorem mget_addCard_other (M : JsMath) (s : EngineState)
    (id id2 : String) (ex : Bool) (rx rz : ℚ) (hne : id2 ≠ id) :
    mget (addCard M s id ex rx rz).cards id2 = mget s.cards id2 := by
  unfold addCard
  split
  · rfl
  · dsimp only
    show mget (updCard (mset s.cards id
        { objId := s.nextObjId, pos := ⟨(rx - 0.5) * 200, 1000, 500⟩,
          rot := ⟨M.pi / 2, 0, (rz - 0.5) * 0.5⟩, home := none,
          hovered := false, visible := true, hoverTween := none }) id
        (fun c => { c with
          home := some (homeOfTransform (computeStackTransform M
            (mset s.cards id
              { objId := s.nextObjId, pos := ⟨(rx - 0.5) * 200, 1000, 500⟩,
                rot := ⟨M.pi / 2, 0, (rz - 0.5) * 0.5⟩, home := none,
                hovered := false, visible := true,
                hoverTween := none }).length)),
          hovered := false })) id2 = mget s.cards id2
    rw [mget_updCard_other _ _ _ _ hne, mget_mset_other _ _ _ _ hne]

theorem length_addCard_fresh (M : JsMath) (s : EngineState) (id : String)
    (rx rz : ℚ) (h : mget s.cards id = none) :
    (addCard M s id true rx rz).cards.length = s.cards.length + 1 := by
  unfold addCard
  split
  · rename_i hx
    simp at hx
  · dsimp only
    show (updCard (mset s.cards id
        { objId := s.nextObjId, pos := ⟨(rx - 0.5) * 200, 1000, 500⟩,
          rot := ⟨M.pi / 2, 0, (rz - 0.5) * 0.5⟩, home := none,
          hovered := false, visible := true, hoverTween := none }) id
        (fun c => { c with
          home := some (homeOfTransform (computeStackTransform M
            (mset s.cards id
              { objId := s.nextObjId, pos := ⟨(rx - 0.5) * 200, 1000, 500⟩,
                rot := ⟨M.pi / 2, 0, (rz - 0.5) * 0.5⟩, home := none,
                hovered := false, visible := true,
                hoverTween := none }).length)),
          hovered := false })).length = s.cards.length + 1
    rw [length_updCard, length_mset_of_none _ _ _ h]

theorem addSeq_mget_other (M : JsMath) (adds : List (String × ℚ × ℚ))
    (s : EngineState) (c : String) (hne : ∀ b ∈ adds, b.1 ≠ c) :
    mget (addSeq M s adds).cards c = mget s.cards c := by
  induction adds generalizing s with
  | nil => rfl
  | cons a rest ih =>
    show mget (addSeq M (addCard M s a.1 true a.2.1 a.2.2) rest).cards c = _
    rw [ih _ (fun b hb => hne b (List.mem_cons_of_mem a hb))]
    exact mget_addCard_other M s a.1 c true a.2.1 a.2.2
      (hne a (List.mem_cons_self a rest)).symm

theorem addSeq_home_spec (M : JsMath) (adds : List (String × ℚ × ℚ))
    (s : EngineState)
    (hfresh : ∀ a ∈ adds, mget s.cards a.1 = none)
    (hnd : (adds.map (fun a => a.1)).Nodup) :
    ∀ k (hk : k < adds.length),
      cardHome (addSeq M s adds) ((adds.get ⟨k, hk⟩).1) =
        some (homeOfTransform
          (computeStackTransform M (s.cards.length + k + 1))) := by
  induction adds generalizing s with
  | nil =>
    intro k hk
    simp at hk
  | cons a rest ih =>
    simp only [List.map_cons, List.nodup_cons] at hnd
    have hfresha : mget s.cards a.1 = none :=
      hfresh a (List.mem_cons_self a rest)
    have hfrest : ∀ b ∈ rest,
        mget (addCard M s a.1 true a.2.1 a.2.2).cards b.1 = none := by
      intro b hb
      have hbne : b.1 ≠ a.1 := by
        intro hc
        apply hnd.1
        rw [← hc]
        exact List.mem_map_of_mem (fun x => x.1) hb
      rw [mget_addCard_other M s a.1 b.1 true a.2.1 a.2.2 hbne]
      exact hfresh b (List.mem_cons_of_mem a hb)
    intro k hk
    cases k with
    | zero =>
      have hno : ∀ b ∈ rest, b.1 ≠ a.1 := by
        intro b hb hc
        apply hnd.1
        rw [← hc]
        exact List.mem_map_of_mem (fun x => x.1) hb
      show cardHome (addSeq M (addCard M s a.1 true a.2.1 a.2.2) rest) a.1 = _
      unfold cardHome
      rw [addSeq_mget_other M rest (addCard M s a.1 true a.2.1 a.2.2) a.1 hno]
      exact cardHome_addCard_fresh M s a.1 a.2.1 a.2.2 hfresha
    | succ k2 =>
      have hk2 : k2 < rest.length := Nat.lt_of_succ_lt_succ hk
      have hrec := ih (addCard M s a.1 true a.2.1 a.2.2) hfrest hnd.2 k2 hk2
      rw [length_addCard_fresh M s a.1 a.2.1 a.2.2 hfresha] at hrec
      have harith : s.cards.length + 1 + k2 + 1 =
          s.cards.length + (k2 + 1) + 1 := by omega
      rw [harith] at hrec
      exact hrec

/-! Facts about restackVisible used for the idempotence claim -/

theorem keys_restackStep (M : JsMath) (s : EngineState) (idx : Nat)
    (id2 : String) :
    (restackStep M s idx id2).cards.map Prod.fst = s.cards.map Prod.fst := by
  unfold restackStep
  split
  · rfl
  · rename_i c hm
    dsimp only
    by_cases hh : c.hovered = true
    · rw [if_pos hh]
      show (dropCard { s with cards := updCard s.cards id2 (fun cc =>
          { cc with home := some (homeOfTransform
              (computeStackTransform M (idx + 1))) }) } id2 true).cards.map
          Prod.fst = s.cards.map Prod.fst
      rw [keys_dropCard]
      show (updCard s.cards id2 (fun cc =>
          { cc with home := some (homeOfTransform
              (computeStackTransform M (idx + 1))) })).map Prod.fst = _
      rw [keys_updCard]
    · rw [if_neg hh]
      show (updCard s.cards id2 (fun cc =>
          { cc with home := some (homeOfTransform
              (computeStackTransform M (idx + 1))) })).map Prod.fst = _
      rw [keys_updCard]

theorem cardHome_restackStep_self (M : JsMath) (s : EngineState)
    (idx : Nat) (id2 : String) (h : (mget s.cards id2).isSome = true) :
    cardHome (restackStep M s idx id2) id2 =
      some (homeOfTransform (computeStackTransform M (idx + 1))) := by
  unfold restackStep
  split
  · rename_i hm
    rw [hm] at h
    simp at h
  · rename_i c hm
    dsimp only
    by_cases hh : c.hovered = true
    · rw [if_pos hh]
      show cardHome (dropCard { s with cards := updCard s.cards id2 (fun cc =>
          { cc with home := some (homeOfTransform
              (computeStackTransform M (idx + 1))) }) } id2 true) id2 = _
      rw [cardHome_dropCard]
      show (mget (updCard s.cards id2 (fun cc =>
          { cc with home := some (homeOfTransform
              (computeStackTransform M (idx + 1))) })) id2).bind Card.home = _
      rw [mget_updCard_self, hm]
      rfl
    · rw [if_neg hh]
      show (mget (updCard s.cards id2 (fun cc =>
          { cc with home := some (homeOfTransform
              (computeStackTransform M (idx + 1))) })) id2).bind Card.home = _
      rw [mget_updCard_self, hm]
      rfl

theorem cardHome_restackStep_other (M : JsMath) (s : EngineState)
    (idx : Nat) (id2 c : String) (hne : c ≠ id2) :
    cardHome (restackStep M s idx id2) c = cardHome s c := by
  unfold restackStep
  split
  · rfl
  · rename_i cc hm
    dsimp only
    by_cases hh : cc.hovered = true
    · rw [if_pos hh]
      show cardHome (dropCard { s with cards := updCard s.cards id2 (fun c2 =>
          { c2 with home := some (homeOfTransform
              (computeStackTransform M (idx + 1))) }) } id2 true) c = _
      rw [cardHome_dropCard]
      show (mget (updCard s.cards id2 (fun c2 =>
          { c2 with home := some (homeOfTransform
              (computeStackTransform M (idx + 1))) })) c).bind Card.home = _
      rw [mget_updCard_other _ _ _ _ hne]
      rfl
    · rw [if_neg hh]
      show (mget (updCard s.cards id2 (fun c2 =>
          { c2 with home := some (homeOfTransform
              (computeStackTransform M (idx + 1))) })) c).bind Card.home = _
      rw [mget_updCard_other _ _ _ _ hne]
      rfl

theorem snd_mem_enumFrom {α : Type} {l : List α} (n : ℕ) (p : ℕ × α)
    (h : p ∈ l.enumFrom n) : p.2 ∈ l := by
  induction l generalizing n with
  | nil => simp [List.enumFrom] at h
  | cons a rest ih =>
    simp only [List.enumFrom] at h
    rcases List.mem_cons.mp h with h1 | h1
    · rw [h1]
      exact List.mem_cons_self _ _
    · exact List.mem_cons_of_mem _ (ih (n + 1) h1)

theorem snd_mem_enum {α : Type} {l : List α} (p : ℕ × α)
    (h : p ∈ l.enum) : p.2 ∈ l :=
  snd_mem_enumFrom 0 p h

theorem keys_restackFold (M : JsMath) (l : List (Nat × String))
    (u : EngineState) :
    (l.foldl (fun st p => restackStep M st p.1 p.2) u).cards.map Prod.fst
      = u.cards.map Prod.fst := by
  induction l generalizing u with
  | nil => rfl
  | cons p rest ih =>
    show (rest.foldl (fun st q => restackStep M st q.1 q.2)
        (restackStep M u p.1 p.2)).cards.map Prod.fst = _
    rw [ih (restackStep M u p.1 p.2), keys_restackStep]

theorem cardHome_restackFold (M : JsMath) (l : List (Nat × String))
    (s : EngineState) (hl : ∀ p ∈ l, p.2 ∈ s.cards.map Prod.fst)
    (c : String) :
    cardHome (l.foldl (fun st p => restackStep M st p.1 p.2) s) c
      = homeAfter M l c (cardHome s c) := by
  induction l generalizing s with
  | nil => rfl
  | cons p rest ih =>
    have hmem : (mget s.cards p.2).isSome = true :=
      (mget_isSome_iff s.cards p.2).mpr (hl p (List.mem_cons_self p rest))
    have hl2 : ∀ q ∈ rest,
        q.2 ∈ (restackStep M s p.1 p.2).cards.map Prod.fst := by
      rw [keys_restackStep]
      exact fun q hq => hl q (List.mem_cons_of_mem p hq)
    show cardHome (rest.foldl (fun st q => restackStep M st q.1 q.2)
        (restackStep M s p.1 p.2)) c = _
    rw [ih (restackStep M s p.1 p.2) hl2]
    show homeAfter M rest c (cardHome (restackStep M s p.1 p.2) c)
      = homeAfter M rest c (if p.2 = c then
          some (homeOfTransform (computeStackTransform M (p.1 + 1)))
        else cardHome s c)
    congr 1
    by_cases hc : p.2 = c
    · rw [if_pos hc]
      rw [← hc]
      exact cardHome_restackStep_self M s p.1 p.2 hmem
    · rw [if_neg hc]
      exact cardHome_restackStep_other M s p.1 p.2 c
        (fun hcc => hc hcc.symm)

theorem homeAfter_indep (M : JsMath) (l : List (Nat × String)) (c : String)
    (hmem : c ∈ l.map Prod.snd) (h h2 : Option Home) :
    homeAfter M l c h = homeAfter M l c h2 := by
  induction l generalizing h h2 with
  | nil => simp at hmem
  | cons p rest ih =>
    show homeAfter M rest c (if p.2 = c then
        some (homeOfTransform (computeStackTransform M (p.1 + 1))) else h)
      = homeAfter M rest c (if p.2 = c then
        some (homeOfTransform (computeStackTransform M (p.1 + 1))) else h2)
    by_cases hc : p.2 = c
    · rw [if_pos hc, if_pos hc]
    · rw [if_neg hc, if_neg hc]
      have hm2 : c ∈ rest.map Prod.snd := by
        simp only [List.map_cons, List.mem_cons] at hmem
        rcases hmem with hm | hm
        · exact absurd hm.symm hc
        · exact hm
      exact ih hm2 h h2

theorem homeAfter_not_mem (M : JsMath) (l : List (Nat × String))
    (c : String) (h : Option Home) (hnm : c ∉ l.map Prod.snd) :
    homeAfter M l c h = h := by
  induction l generalizing h with
  | nil => rfl
  | cons p rest ih =>
    have hc : ¬(p.2 = c) := by
      intro hc
      apply hnm
      simp only [List.map_cons, List.mem_cons]
      exact Or.inl hc.symm
    have hnm2 : c ∉ rest.map Prod.snd := by
      intro hm
      apply hnm
      simp only [List.map_cons, List.mem_cons]
      exact Or.inr hm
    show homeAfter M rest c (if p.2 = c then
        some (homeOfTransform (computeStackTransform M (p.1 + 1))) else h) = h
    rw [if_neg hc]
    exact ih h hnm2

/-- The entry a forced drop leaves for the dropped id: hovered cleared,
hoverTween handle pointing at the fresh home position tween. -/
theorem mget_dropCard_self (s : EngineState) (k : String) (c : Card)
    (hm : mget s.cards k = some c) (hh : c.home.isSome = true) :
    mget (dropCard s k true).cards k =
      some { c with hovered := false, hoverTween := some s.nextTweenId } := by
  unfold dropCard
  split
  · rename_i hnone
    rw [hm] at hnone
    simp at hnone
  · rename_i c2 hm2
    rw [hm] at hm2
    have hc2 : c = c2 := Option.some.inj hm2
    subst hc2
    split
    · rename_i hfx
      simp at hfx
    · split
      · rename_i hhx
        rw [hhx] at hh
        simp at hh
      · rename_i h0 hhx
        dsimp only
        simp only [startTween, stopTween_cards, stopTween_nextTweenId,
          updCard_updCard, mget_updCard_self, hm, Option.map_some']

/-! Claim theorems -/

/-- Claim C1: at most one card is in the hovered state at any instant.
For every interleaving of engine events (pointer-enter, pointer-leave,
release-timer, setCardVisible, restackVisible, discard, and every other
event of the model) starting from a freshly constructed engine, the
number of cards whose hovered flag is true is at most one.  The proof is
the inductive invariant that every hovered card is the active hover id
with no duplicate keys: pointer-enter outside the switch-lock window
first force-drops the previously hovered card before lifting the new
one. -/
theorem at_most_one_hovered (M : JsMath) (reduced : Bool)
    (breathPhase : ℚ) (evs : List Event) :
    hoveredCount (run M (initState reduced breathPhase) evs) ≤ 1 := by
  obtain ⟨hnd, hhome, hOK⟩ := inv_run M evs (inv_init reduced breathPhase)
  exact hovered_filter_le_one hnd hOK

/-- Claim C2: the public surface is total (every modelled operation is a
total function) and unknown-id operations are strict no-ops: moveToStack,
discard and setCardVisible on an id with no entry return the state
unchanged, restackVisible filters the id away and changes nothing, and
addCard with no matching DOM element aborts with no state change. -/
theorem unknown_id_operations_noop (M : JsMath) (s : EngineState)
    (id : String) (vis : Bool) (rz rx : ℚ)
    (h : mget s.cards id = none) :
    moveToStack s id rz = s ∧ discard s id = s ∧
    setCardVisible s id vis = s ∧ restackVisible M s [id] = s ∧
    addCard M s id false rx rz = s := by
  refine ⟨?_, ?_, ?_, ?_, ?_⟩
  · simp [moveToStack, h]
  · simp [discard, h]
  · simp [setCardVisible, h]
  · simp [restackVisible, h]
  · simp [addCard]

/-- Witness for C2: the operations are no-ops on an empty engine and an
unknown id. -/
theorem unknown_id_operations_noop_witness :
    mget (initState false 0).cards "x" = none ∧
    (moveToStack (initState false 0) "x" 0 = initState false 0 ∧
      discard (initState false 0) "x" = initState false 0 ∧
      setCardVisible (initState false 0) "x" true = initState false 0 ∧
      restackVisible M0 (initState false 0) ["x"] = initState false 0 ∧
      addCard M0 (initState false 0) "x" false 0 0 = initState false 0) :=
  ⟨by decide,
    unknown_id_operations_noop M0 (initState false 0) "x" true 0 0
      (by decide)⟩

/-- Claim C3: for every sequence of addCard calls with distinct ids
(each with a matching element), the k-th added card ends with home
transform computeStackTransform (k+1) — its stack index is its 1-based
insertion order — and the home does not depend on the Math.random()
draws of the calls (the right-hand side mentions only the index), so the
jitter comes only from the seeded pseudo-random function. -/
theorem stack_index_is_insertion_order (M : JsMath) (reduced : Bool)
    (breathPhase : ℚ) (adds : List (String × ℚ × ℚ))
    (hnd : (adds.map (fun a => a.1)).Nodup) (k : Nat)
    (hk : k < adds.length) :
    cardHome (addSeq M (initState reduced breathPhase) adds)
        ((adds.get ⟨k, hk⟩).1) =
      some (homeOfTransform (computeStackTransform M (k + 1))) := by
  have h := addSeq_home_spec M adds (initState reduced breathPhase)
    (fun a ha => rfl) hnd k hk
  have hlen : (initState reduced breathPhase).cards.length = 0 := rfl
  rw [hlen] at h
  simpa using h

/-- Witness for C3: two dealt cards; the second sits at stack slot 2. -/
theorem stack_index_is_insertion_order_witness :
    (([("a", (0 : ℚ), (0 : ℚ)), ("b", 0, 0)].map
        (fun a => a.1)).Nodup ∧ 1 < [("a", (0 : ℚ), (0 : ℚ)), ("b", 0, 0)].length) ∧
    cardHome (addSeq M0 (initState false 0)
        [("a", 0, 0), ("b", 0, 0)]) "b" =
      some (homeOfTransform (computeStackTransform M0 2)) :=
  ⟨⟨by decide, by decide⟩, by
    have h := stack_index_is_insertion_order M0 false 0
      [("a", 0, 0), ("b", 0, 0)] (by decide) 1 (by decide)
    simpa using h⟩

/-- Counterexample to claim C4 as stated: a prior history of pointer
motion leaves the camera off its base position, and frames run after
setMotionEnabled(false) do not return it to base — the update is
skipped, not reset. -/
theorem camera_off_base_after_disable :
    motionHistoryState.prefersReducedMotion = true ∧
    motionHistoryState.cameraPos.x ≠ baseCamera.x := by
  decide

/-- Claim C4 (amended): after setMotionEnabled(false), frame updates are
skipped entirely (parallax and breathing untouched), so the camera stays
exactly where it was at the moment motion was disabled; it equals the
base position only in histories that never moved it. -/
theorem motion_disabled_frames_freeze_camera (M : JsMath)
    (s : EngineState) (ts : List ℚ) :
    (run M (setMotionEnabled s false) (ts.map Event.evFrame)).cameraPos
      = s.cameraPos := by
  have hfix : ∀ (l : List ℚ) (u : EngineState),
      u.prefersReducedMotion = true → run M u (l.map Event.evFrame) = u := by
    intro l
    induction l with
    | nil =>
      intro u hu
      rfl
    | cons t rest ih =>
      intro u hu
      have hstep : step M u (Event.evFrame t) = u := by
        show updateCameraMotion M u t = u
        unfold updateCameraMotion
        rw [if_pos hu]
      show run M (step M u (Event.evFrame t)) (rest.map Event.evFrame) = u
      rw [hstep]
      exact ih u hu
  rw [hfix ts (setMotionEnabled s false) rfl]
  rfl

/-- find? skips a prefix containing no match. -/
theorem find_skip_front {p : Tween → Bool} (l1 l2 : List Tween)
    (h : ∀ t ∈ l1, p t = false) :
    (l1 ++ l2).find? p = l2.find? p := by
  induction l1 with
  | nil => rfl
  | cons t rest ih =>
    show ((t :: (rest ++ l2)).find? p) = l2.find? p
    rw [List.find?_cons_of_neg]
    · exact ih (fun t2 ht2 => h t2 (List.mem_cons_of_mem t ht2))
    · simp [h t (List.mem_cons_self t rest)]

/-- Counterexample to claim C5 as stated: after the discard tween of
card a completes, a is gone from the active set, but the hover lift
tween (tid 3, targeting a's object 0) started during the discard flight
is still running — removal does not cancel in-flight animations. -/
theorem discard_leaves_lift_tween_running :
    mget discardLiftState.cards "a" = none ∧
    discardLiftState.tweens.countP
      (fun t => t.tid = 3 ∧ t.objId = 0 ∧ t.tfield = TField.position) ≠ 0 := by
  decide

/-- Claim C5 (amended): discard(id) starts the fly-out tween and leaves
the active set untouched; the card is removed from the set only when
that tween completes (its onComplete callback).  Other in-flight tweens
referencing the card are not cancelled by the removal. -/
theorem discard_removes_only_after_completion (s : EngineState)
    (id : String) (c : Card) (hm : mget s.cards id = some c)
    (hnd : NodupKeys s)
    (htid : ∀ t ∈ s.tweens, t.tid ≠ s.nextTweenId) :
    (discard s id).cards = s.cards ∧
    mget (tweenComplete (discard s id) s.nextTweenId).cards id = none := by
  have hcards : (discard s id).cards = s.cards := by
    unfold discard
    split
    · rfl
    · rfl
  refine ⟨hcards, ?_⟩
  have htweens : (discard s id).tweens = s.tweens ++
      [⟨s.nextTweenId, c.objId, TField.position,
        ⟨some (-1000), some 0, some 0⟩, 600, some id⟩] := by
    unfold discard
    split
    · rename_i hx
      rw [hm] at hx
      simp at hx
    · rename_i c2 hm2
      rw [hm] at hm2
      have hc2 : c = c2 := Option.some.inj hm2
      subst hc2
      rfl
  have hfind : (discard s id).tweens.find?
      (fun t => t.tid = s.nextTweenId) =
      some ⟨s.nextTweenId, c.objId, TField.position,
        ⟨some (-1000), some 0, some 0⟩, 600, some id⟩ := by
    rw [htweens, find_skip_front _ _ (fun t ht => by simp [htid t ht])]
    simp
  unfold tweenComplete
  rw [hfind]
  dsimp only
  rw [hcards]
  exact mget_mdelete_self id (by rw [keys_map_apply]; exact hnd)

/-- Witness for the amended C5 at a concrete one-card engine. -/
theorem discard_removes_only_after_completion_witness :
    (mget oneCardState.cards "a"
        = some ((mget oneCardState.cards "a").getD card0) ∧
      NodupKeys oneCardState ∧
      ∀ t ∈ oneCardState.tweens, t.tid ≠ oneCardState.nextTweenId) ∧
    ((discard oneCardState "a").cards = oneCardState.cards ∧
      mget (tweenComplete (discard oneCardState "a")
        oneCardState.nextTweenId).cards "a" = none) :=
  ⟨⟨by decide, by decide, by decide⟩,
    discard_removes_only_after_completion oneCardState "a"
      ((mget oneCardState.cards "a").getD card0) (by decide) (by decide)
      (by decide)⟩

/-- Claim C6: hiding the currently hovered card first drops it to
resting — after setCardVisible(id, false) on a hovered card, the card's
hovered flag is cleared, it is hidden, and the active hover identifier
is cleared, so no hidden card remains hovered. -/
theorem setCardVisible_false_unhovers (s : EngineState) (id : String)
    (hinv : Inv s)
    (hh : (mget s.cards id).map Card.hovered = some true) :
    (mget (setCardVisible s id false).cards id).map Card.hovered
        = some false ∧
    (mget (setCardVisible s id false).cards id).map Card.visible
        = some false ∧
    (setCardVisible s id false).hoverState.activeId = none := by
  obtain ⟨hnd, hhome, hOK⟩ := hinv
  cases hmg : mget s.cards id with
  | none =>
    rw [hmg] at hh
    simp at hh
  | some c =>
    rw [hmg] at hh
    have hhov : c.hovered = true := by simpa using hh
    have hmem := mem_of_mget_eq_some hmg
    have hact : s.hoverState.activeId = some id := hOK (id, c) hmem hhov
    have hhome2 : c.home.isSome = true := hhome (id, c) hmem
    have hdrop := mget_dropCard_self s id c hmg hhome2
    unfold setCardVisible
    split
    · rename_i hx
      rw [hmg] at hx
      simp at hx
    · rename_i c2 hm2
      dsimp only
      rw [if_pos ⟨rfl, hact⟩]
      refine ⟨?_, ?_, ?_⟩
      · show (mget (updCard (dropCard s id true).cards id
            (fun cc => { cc with visible := false })) id).map Card.hovered
          = some false
        rw [mget_updCard_self, hdrop]
        rfl
      · show (mget (updCard (dropCard s id true).cards id
            (fun cc => { cc with visible := false })) id).map Card.visible
          = some false
        rw [mget_updCard_self, hdrop]
        rfl
      · rfl

/-- Witness for C6 at a concrete engine with card a hovered. -/
theorem setCardVisible_false_unhovers_witness :
    (Inv hoverDemoState ∧
      (mget hoverDemoState.cards "a").map Card.hovered = some true) ∧
    ((mget (setCardVisible hoverDemoState "a" false).cards "a").map
        Card.hovered = some false ∧
      (mget (setCardVisible hoverDemoState "a" false).cards "a").map
        Card.visible = some false ∧
      (setCardVisible hoverDemoState "a" false).hoverState.activeId
        = none) :=
  ⟨⟨by decide, by decide⟩,
    setCardVisible_false_unhovers hoverDemoState "a" (by decide)
      (by decide)⟩

/-- Claim C7: restackVisible is idempotent on home transforms — for
every id list and every card (in particular any pair a, b in the active
set), running restackVisible twice with the same list leaves exactly the
home transforms produced by the first run. -/
theorem restackVisible_idempotent_on_homes (M : JsMath) (s : EngineState)
    (ids : List String) (c : String) :
    cardHome (restackVisible M (restackVisible M s ids) ids) c
      = cardHome (restackVisible M s ids) c := by
  have hkeys : (restackVisible M s ids).cards.map Prod.fst
      = s.cards.map Prod.fst := by
    unfold restackVisible
    exact keys_restackFold M _ s
  have hfilter : ids.filter
      (fun id => (mget (restackVisible M s ids).cards id).isSome)
      = ids.filter (fun id => (mget s.cards id).isSome) := by
    apply List.filter_congr
    intro id hid
    have h1 := mget_isSome_iff (restackVisible M s ids).cards id
    rw [hkeys] at h1
    have h2 := mget_isSome_iff s.cards id
    cases hbs : (mget s.cards id).isSome
    · cases hbr : (mget (restackVisible M s ids).cards id).isSome
      · rfl
      · rw [hbr] at h1
        rw [hbs] at h2
        exact absurd (h2.mpr (h1.mp rfl)) (by simp)
    · cases hbr : (mget (restackVisible M s ids).cards id).isSome
      · rw [hbr] at h1
        rw [hbs] at h2
        exact absurd (h1.mpr (h2.mp rfl)) (by simp)
      · rfl
  have hpre : ∀ p ∈ (ids.filter
      (fun id => (mget s.cards id).isSome)).enum,
      p.2 ∈ s.cards.map Prod.fst := by
    intro p hp
    have hmem := snd_mem_enum p hp
    exact (mget_isSome_iff s.cards p.2).mp (List.mem_filter.mp hmem).2
  have h1 : cardHome (restackVisible M s ids) c
      = homeAfter M (ids.filter
          (fun id => (mget s.cards id).isSome)).enum c (cardHome s c) := by
    unfold restackVisible
    exact cardHome_restackFold M _ s hpre c
  have hpre2 : ∀ p ∈ (ids.filter
      (fun id => (mget s.cards id).isSome)).enum,
      p.2 ∈ (restackVisible M s ids).cards.map Prod.fst := by
    rw [hkeys]
    exact hpre
  have h2 : cardHome (restackVisible M (restackVisible M s ids) ids) c
      = homeAfter M (ids.filter
          (fun id => (mget s.cards id).isSome)).enum c
        (cardHome (restackVisible M s ids) c) := by
    have hdef : restackVisible M (restackVisible M s ids) ids
        = ((ids.filter (fun id =>
            (mget (restackVisible M s ids).cards id).isSome)).enum).foldl
            (fun st p => restackStep M st p.1 p.2)
            (restackVisible M s ids) := rfl
    rw [hdef, hfilter]
    exact cardHome_restackFold M _ (restackVisible M s ids) hpre2 c
  rw [h2, h1]
  by_cases hc : c ∈ ((ids.filter
      (fun id => (mget s.cards id).isSome)).enum).map Prod.snd
  · exact homeAfter_indep M _ c hc _ _
  · rw [homeAfter_not_mem M _ c _ hc]

/-- Counterexample to claim C8 as stated: with card a hovered, a pending
release timer from leaving a, and the switch lock still active, a
pointer-enter on card b is ignored — but the pending release timer is
cancelled (cleared to none before the lock check), so the hover state is
not left fully unchanged. -/
theorem switch_lock_timer_cleared_counterexample :
    lockTimerPre.hoverState.activeId = some "a" ∧
    lockTimerPre.hoverState.leaveTimer = some "a" ∧
    (100 : ℚ) < lockTimerPre.hoverState.switchLockUntil ∧
    lockTimerPost = onCardEnter M0 lockTimerPre "b" 100 ∧
    lockTimerPost.hoverState.leaveTimer = none := by
  refine ⟨by decide, by decide, by decide, rfl, by decide⟩

/-- Claim C8 (amended): if a different card is hovered and the lock
window has not elapsed, a pointer-enter is ignored except that any
pending release timer is cancelled: the result is exactly the input
state with hoverState.leaveTimer := none (active id, hovered flags and
lock unchanged). -/
theorem switch_lock_ignores_enter_but_clears_timer (M : JsMath)
    (s : EngineState) (id : String) (now : ℚ) (a : String)
    (ha : s.hoverState.activeId = some a) (hne : a ≠ id)
    (hlock : now < s.hoverState.switchLockUntil) :
    onCardEnter M s id now =
      { s with hoverState := { s.hoverState with leaveTimer := none } } := by
  unfold onCardEnter
  dsimp only
  split
  · rename_i a2 ha2
    rw [ha] at ha2
    have ha3 : a = a2 := Option.some.inj ha2
    subst ha3
    rw [if_pos hne, if_pos hlock]
  · rename_i ha2
    rw [ha] at ha2
    simp at ha2

/-- Witness for the amended C8 at the concrete locked state. -/
theorem switch_lock_ignores_enter_witness :
    (lockTimerPre.hoverState.activeId = some "a" ∧ "a" ≠ "b" ∧
      (100 : ℚ) < lockTimerPre.hoverState.switchLockUntil) ∧
    onCardEnter M0 lockTimerPre "b" 100 =
      { lockTimerPre with hoverState :=
          { lockTimerPre.hoverState with leaveTimer := none } } :=
  ⟨⟨by decide, by decide, by decide⟩,
    switch_lock_ignores_enter_but_clears_timer M0 lockTimerPre "b" 100 "a"
      (by decide) (by decide) (by decide)⟩

/-- Claim C10: addCard on an id already tracked (with a matching
element) overwrites the Map entry in place — the active-set size does
not grow, the replacement card's stack index equals the current set
size (its home is computeStackTransform of that size, not of a fresh
insertion position), the previously tracked scene object stays in the
scene, and the map now points at the freshly created object. -/
theorem addCard_existing_id_overwrites (M : JsMath) (s : EngineState)
    (id : String) (old : Card) (rx rz : ℚ)
    (hold : mget s.cards id = some old)
    (hscene : old.objId ∈ s.scene) (hfresh : old.objId ≠ s.nextObjId) :
    (addCard M s id true rx rz).cards.length = s.cards.length ∧
    cardHome (addCard M s id true rx rz) id =
      some (homeOfTransform (computeStackTransform M s.cards.length)) ∧
    old.objId ∈ (addCard M s id true rx rz).scene ∧
    (mget (addCard M s id true rx rz).cards id).map Card.objId
      = some s.nextObjId ∧
    (mget (addCard M s id true rx rz).cards id).map Card.objId
      ≠ some old.objId := by
  have hsome : (mget s.cards id).isSome = true := by
    rw [hold]
    rfl
  refine ⟨?_, ?_, ?_, ?_, ?_⟩
  · unfold addCard
    split
    · rename_i hx
      simp at hx
    · dsimp only
      show (updCard (mset s.cards id
          { objId := s.nextObjId, pos := ⟨(rx - 0.5) * 200, 1000, 500⟩,
            rot := ⟨M.pi / 2, 0, (rz - 0.5) * 0.5⟩, home := none,
            hovered := false, visible := true, hoverTween := none }) id
          (fun c => { c with
            home := some (homeOfTransform (computeStackTransform M
              (mset s.cards id
                { objId := s.nextObjId, pos := ⟨(rx - 0.5) * 200, 1000, 500⟩,
                  rot := ⟨M.pi / 2, 0, (rz - 0.5) * 0.5⟩, home := none,
                  hovered := false, visible := true,
                  hoverTween := none }).length)),
            hovered := false })).length = s.cards.length
      rw [length_updCard, length_mset_of_isSome _ _ _ hsome]
  · unfold addCard
    split
    · rename_i hx
      simp at hx
    · dsimp only
      show (mget (updCard (mset s.cards id
          { objId := s.nextObjId, pos := ⟨(rx - 0.5) * 200, 1000, 500⟩,
            rot := ⟨M.pi / 2, 0, (rz - 0.5) * 0.5⟩, home := none,
            hovered := false, visible := true, hoverTween := none }) id
          (fun c => { c with
            home := some (homeOfTransform (computeStackTransform M
              (mset s.cards id
                { objId := s.nextObjId, pos := ⟨(rx - 0.5) * 200, 1000, 500⟩,
                  rot := ⟨M.pi / 2, 0, (rz - 0.5) * 0.5⟩, home := none,
                  hovered := false, visible := true,
                  hoverTween := none }).length)),
            hovered := false })) id).bind Card.home = _
      rw [mget_updCard_self, mget_mset_self,
        length_mset_of_isSome _ _ _ hsome]
      rfl
  · unfold addCard
    split
    · rename_i hx
      simp at hx
    · dsimp only
      show old.objId ∈ s.scene ++ [s.nextObjId]
      exact List.mem_append_left _ hscene
  · unfold addCard
    split
    · rename_i hx
      simp at hx
    · dsimp only
      show (mget (updCard (mset s.cards id
          { objId := s.nextObjId, pos := ⟨(rx - 0.5) * 200, 1000, 500⟩,
            rot := ⟨M.pi / 2, 0, (rz - 0.5) * 0.5⟩, home := none,
            hovered := false, visible := true, hoverTween := none }) id
          (fun c => { c with
            home := some (homeOfTransform (computeStackTransform M
              (mset s.cards id
                { objId := s.nextObjId, pos := ⟨(rx - 0.5) * 200, 1000, 500⟩,
                  rot := ⟨M.pi / 2, 0, (rz - 0.5) * 0.5⟩, home := none,
                  hovered := false, visible := true,
                  hoverTween := none }).length)),
            hovered := false })) id).map Card.objId = some s.nextObjId
      rw [mget_updCard_self, mget_mset_self]
      rfl
  · unfold addCard
    split
    · rename_i hx
      simp at hx
    · dsimp only
      show ¬((mget (updCard (mset s.cards id
          { objId := s.nextObjId, pos := ⟨(rx - 0.5) * 200, 1000, 500⟩,
            rot := ⟨M.pi / 2, 0, (rz - 0.5) * 0.5⟩, home := none,
            hovered := false, visible := true, hoverTween := none }) id
          (fun c => { c with
            home := some (homeOfTransform (computeStackTransform M
              (mset s.cards id
                { objId := s.nextObjId, pos := ⟨(rx - 0.5) * 200, 1000, 500⟩,
                  rot := ⟨M.pi / 2, 0, (rz - 0.5) * 0.5⟩, home := none,
                  hovered := false, visible := true,
                  hoverTween := none }).length)),
            hovered := false })) id).map Card.objId = some old.objId)
      rw [mget_updCard_self, mget_mset_self]
      intro hcontra
      have hno : s.nextObjId = old.objId := by simpa using hcontra
      exact hfresh hno.symm

/-- Witness for C10: re-adding the only card of a one-card engine. -/
theorem addCard_existing_id_overwrites_witness :
    (mget oneCardState.cards "a"
        = some ((mget oneCardState.cards "a").getD card0) ∧
      ((mget oneCardState.cards "a").getD card0).objId
        ∈ oneCardState.scene ∧
      ((mget oneCardState.cards "a").getD card0).objId
        ≠ oneCardState.nextObjId) ∧
    ((addCard M0 oneCardState "a" true 0 0).cards.length
        = oneCardState.cards.length ∧
      cardHome (addCard M0 oneCardState "a" true 0 0) "a" =
        some (homeOfTransform
          (computeStackTransform M0 oneCardState.cards.length)) ∧
      ((mget oneCardState.cards "a").getD card0).objId
        ∈ (addCard M0 oneCardState "a" true 0 0).scene ∧
      (mget (addCard M0 oneCardState "a" true 0 0).cards "a").map
          Card.objId = some oneCardState.nextObjId ∧
      (mget (addCard M0 oneCardState "a" true 0 0).cards "a").map
          Card.objId
        ≠ some ((mget oneCardState.cards "a").getD card0).objId) :=
  ⟨⟨by decide, by decide, by decide⟩,
    addCard_existing_id_overwrites M0 oneCardState "a"
      ((mget oneCardState.cards "a").getD card0) 0 0 (by decide)
      (by decide) (by decide)⟩

/-! focusLevel is written only by setFocus -/

theorem focusLevel_addCard (M : JsMath) (s : EngineState) (id : String)
    (ex : Bool) (rx rz : ℚ) :
    (addCard M s id ex rx rz).focusLevel = s.focusLevel := by
  unfold addCard
  split
  · rfl
  · rfl

theorem focusLevel_moveToStack (s : EngineState) (id : String) (rz : ℚ) :
    (moveToStack s id rz).focusLevel = s.focusLevel := by
  unfold moveToStack
  split
  · rfl
  · rfl

theorem focusLevel_discard (s : EngineState) (id : String) :
    (discard s id).focusLevel = s.focusLevel := by
  unfold discard
  split
  · rfl
  · rfl

theorem focusLevel_setCardVisible (s : EngineState) (id : String)
    (v : Bool) : (setCardVisible s id v).focusLevel = s.focusLevel := by
  unfold setCardVisible
  split
  · rfl
  · dsimp only
    split
    · show (dropCard s id true).focusLevel = s.focusLevel
      rw [dropCard_focusLevel]
    · rfl

theorem focusLevel_onCardEnter (M : JsMath) (s : EngineState)
    (id : String) (now : ℚ) :
    (onCardEnter M s id now).focusLevel = s.focusLevel := by
  unfold onCardEnter
  dsimp only
  split
  · rename_i a ha
    split
    · rename_i hne
      split
      · rfl
      · rw [liftCard_focusLevel]
        show (dropCard
          { s with hoverState := { s.hoverState with leaveTimer := none } }
          a true).focusLevel = s.focusLevel
        rw [dropCard_focusLevel]
    · rw [liftCard_focusLevel]
  · rw [liftCard_focusLevel]

theorem focusLevel_onCardLeave (s : EngineState) (id : String)
    (inMargin : Bool) : (onCardLeave s id inMargin).focusLevel
      = s.focusLevel := by
  unfold onCardLeave
  split
  · rfl
  · split
    · rfl
    · rfl

theorem focusLevel_releaseTimerFire (s : EngineState) :
    (releaseTimerFire s).focusLevel = s.focusLevel := by
  unfold releaseTimerFire
  split
  · rfl
  · rename_i id hm
    dsimp only
    split
    · show (dropCard
        { s with hoverState := { s.hoverState with leaveTimer := none } }
        id true).focusLevel = s.focusLevel
      rw [dropCard_focusLevel]
    · rfl

theorem focusLevel_containerPointerLeave (s : EngineState) :
    (containerPointerLeave s).focusLevel = s.focusLevel := by
  unfold containerPointerLeave
  dsimp only
  split
  · rename_i a ha
    show (dropCard { s with parallaxTarget := ⟨0, 0⟩ } a
      true).focusLevel = s.focusLevel
    rw [dropCard_focusLevel]
  · rfl

theorem focusLevel_restackStep (M : JsMath) (s : EngineState) (idx : Nat)
    (id2 : String) :
    (restackStep M s idx id2).focusLevel = s.focusLevel := by
  unfold restackStep
  split
  · rfl
  · rename_i c hm
    dsimp only
    split
    · show (dropCard
        { s with cards := updCard s.cards id2 (fun cc =>
            { cc with home := some (homeOfTransform
                (computeStackTransform M (idx + 1))) }) }
        id2 true).focusLevel = s.focusLevel
      rw [dropCard_focusLevel]
    · rfl

theorem focusLevel_restackVisible (M : JsMath) (s : EngineState)
    (ids : List String) :
    (restackVisible M s ids).focusLevel = s.focusLevel := by
  unfold restackVisible
  have hfold : ∀ (l : List (Nat × String)) (u : EngineState),
      (l.foldl (fun st p => restackStep M st p.1 p.2) u).focusLevel
        = u.focusLevel := by
    intro l
    induction l with
    | nil =>
      intro u
      rfl
    | cons p rest ih =>
      intro u
      show (rest.foldl (fun st q => restackStep M st q.1 q.2)
        (restackStep M u p.1 p.2)).focusLevel = u.focusLevel
      rw [ih (restackStep M u p.1 p.2), focusLevel_restackStep]
  exact hfold _ s

theorem focusLevel_pointerMoveUpdate (s : EngineState)
    (cx cy rl rt rw rh : ℚ) :
    (pointerMoveUpdate s cx cy rl rt rw rh).focusLevel = s.focusLevel := by
  unfold pointerMoveUpdate
  split
  · rfl
  · split
    · rfl
    · rfl

theorem focusLevel_updateCameraMotion (M : JsMath) (s : EngineState)
    (now : ℚ) : (updateCameraMotion M s now).focusLevel = s.focusLevel := by
  unfold updateCameraMotion
  split
  · rfl
  · rfl

theorem focusLevel_tweenComplete (s : EngineState) (tid : Nat) :
    (tweenComplete s tid).focusLevel = s.focusLevel := by
  unfold tweenComplete
  split
  · rfl
  · dsimp only
    split
    · rfl
    · rfl

theorem focusLevel_step (M : JsMath) (u : EngineState) (e : Event) :
    (step M u e).focusLevel = u.focusLevel ∨
    ∃ lv, (step M u e).focusLevel = max 0 (min 1 lv) := by
  cases e with
  | evSetFocus lv => exact Or.inr ⟨lv, rfl⟩
  | evAddCard id ex rx rz => exact Or.inl (focusLevel_addCard M u id ex rx rz)
  | evMoveToStack id rz => exact Or.inl (focusLevel_moveToStack u id rz)
  | evDiscard id => exact Or.inl (focusLevel_discard u id)
  | evSetCardVisible id v => exact Or.inl (focusLevel_setCardVisible u id v)
  | evRestackVisible ids => exact Or.inl (focusLevel_restackVisible M u ids)
  | evSetMotionEnabled en => exact Or.inl rfl
  | evCardEnter id now => exact Or.inl (focusLevel_onCardEnter M u id now)
  | evCardLeave id inM => exact Or.inl (focusLevel_onCardLeave u id inM)
  | evReleaseTimer => exact Or.inl (focusLevel_releaseTimerFire u)
  | evContainerLeave => exact Or.inl (focusLevel_containerPointerLeave u)
  | evPointerMove cx cy rl rt rw rh =>
    exact Or.inl (focusLevel_pointerMoveUpdate u cx cy rl rt rw rh)
  | evFrame now => exact Or.inl (focusLevel_updateCameraMotion M u now)
  | evTweenComplete tid => exact Or.inl (focusLevel_tweenComplete u tid)

/-- Claim C9: the stored focus level always lies in the closed interval
[0, 1].  setFocus clamps every input with max 0 (min 1 level), the
initial level is 0, and no other operation writes the field, so over
every event sequence the level stays in [0, 1]. -/
theorem focus_level_in_unit_interval (M : JsMath) (reduced : Bool)
    (breathPhase : ℚ) (evs : List Event) :
    0 ≤ (run M (initState reduced breathPhase) evs).focusLevel ∧
    (run M (initState reduced breathPhase) evs).focusLevel ≤ 1 := by
  have hgen : ∀ (l : List Event) (u : EngineState),
      0 ≤ u.focusLevel → u.focusLevel ≤ 1 →
      0 ≤ (run M u l).focusLevel ∧ (run M u l).focusLevel ≤ 1 := by
    intro l
    induction l with
    | nil =>
      intro u h0 h1
      exact ⟨h0, h1⟩
    | cons e rest ih =>
      intro u h0 h1
      show 0 ≤ (run M (step M u e) rest).focusLevel ∧
        (run M (step M u e) rest).focusLevel ≤ 1
      rcases focusLevel_step M u e with hfe | ⟨lv, hfe⟩
      · exact ih (step M u e) (by rw [hfe]; exact h0) (by rw [hfe]; exact h1)
      · refine ih (step M u e) ?_ ?_
        · rw [hfe]
          exact le_max_left 0 _
        · rw [hfe]
          exact max_le (by norm_num) (min_le_left 1 lv)
  refine hgen evs (initState reduced breathPhase) (le_refl 0) ?_
  show (0 : ℚ) ≤ 1
  norm_num

end CardSpec
